import Mathlib

/-!
# Shallow embedding of the p2pfs message transport core

This file embeds the two transport implementations of the `p2pfs` repository:

* `src/p2pfs/core/server.py` — the async (`asyncio`) variant: `MessageServer`
  with `_read_message` / `_write_message` (zstd-compressed payloads),
  `__message_log`, `__new_connection`, `stop`, and the `MessageType` enum;
* `src/p2pfs/core/utils.py` — the threaded variant: `MessageServer` with
  `_recvall`, `_read_message` (a per-connection loop), `_write_message`.

Bytes are modelled as `Nat` (values < 256 where it matters), byte strings as
`List Nat`, Python text strings as lists of code points (`List Nat`).  Python
exceptions are modelled by the `PyError` type and fallible operations return
`Except PyError α`.  The zstd compressor is an external C library; it is
modelled as a parameter: any pair of functions satisfying the library's
documented lossless round-trip contract (`Zcodec`).
-/

set_option maxRecDepth 4000

namespace P2pfs

/-- Python exceptions that the embedded code can raise. -/
inductive PyError where
  /-- `EOFError` (raised by the threaded `_recvall`). -/
  | eofError
  /-- `asyncio.IncompleteReadError` (raised by `StreamReader.readexactly`). -/
  | incompleteRead
  /-- `json.JSONDecodeError` (a `ValueError` subclass, raised by `json.loads`). -/
  | jsonDecodeError
  /-- `UnicodeDecodeError` (raised by `bytes.decode('utf-8')`). -/
  | unicodeDecodeError
  /-- `KeyError`. -/
  | keyError
  /-- `ValueError` (e.g. `MessageType(x)` on an unrecognized value). -/
  | valueError
  /-- `TypeError` (e.g. `json.dumps` on a non-serializable object). -/
  | typeError
  /-- `struct.error` (raised by `struct.pack('>I', n)` for `n ≥ 2^32`). -/
  | structError
  /-- `zstd.ZstdError` (raised by `ZstdDecompressor.decompress` on bad input). -/
  | zstdError
  /-- `AttributeError` for a missing attribute of the given name. -/
  | attributeError (name : String)
  deriving DecidableEq, Repr

/-! ## The 4-byte big-endian length header (`struct.pack('>I', n)` / `unpack`) -/

/-- `struct.pack('>I', n)`: the 4-byte big-endian encoding of `n`;
`struct.error` if `n` does not fit in an unsigned 32-bit integer. -/
def pack32 (n : Nat) : Except PyError (List Nat) :=
  if n < 2 ^ 32 then
    .ok [n / 2 ^ 24 % 256, n / 2 ^ 16 % 256, n / 2 ^ 8 % 256, n % 256]
  else
    .error .structError

/-- `struct.unpack('>I', b)[0]` on a 4-byte string. -/
def unpack32 (b : List Nat) : Nat :=
  match b with
  | [b0, b1, b2, b3] => b0 * 2 ^ 24 + b1 * 2 ^ 16 + b2 * 2 ^ 8 + b3
  | _ => 0

theorem pack32_ok_of_lt {n : Nat} (h : n < 2 ^ 32) :
    pack32 n = .ok [n / 2 ^ 24 % 256, n / 2 ^ 16 % 256, n / 2 ^ 8 % 256, n % 256] := by
  unfold pack32
  rw [if_pos h]

theorem pack32_length {n : Nat} {b : List Nat} (h : pack32 n = .ok b) :
    b.length = 4 := by
  unfold pack32 at h
  split at h
  · cases h; rfl
  · cases h

theorem unpack32_pack32 {n : Nat} {b : List Nat} (h : pack32 n = .ok b) :
    unpack32 b = n := by
  unfold pack32 at h
  split at h
  · cases h
    simp only [unpack32]
    omega
  · cases h

/-! ## Streams

For the async variant, a closed stream is modelled by the finite list of
bytes the peer delivered before EOF.  `StreamReader.readexactly n` returns
the first `n` bytes, or raises `IncompleteReadError` when fewer than `n`
bytes remain before EOF. -/

/-- `await reader.readexactly n` on a stream that delivers `delivered` and
then hits EOF: the first `n` bytes and the remaining stream, or
`IncompleteReadError`. -/
def readexactly (n : Nat) (delivered : List Nat) :
    Except PyError (List Nat × List Nat) :=
  if delivered.length < n then .error .incompleteRead
  else .ok (delivered.take n, delivered.drop n)

/-- For the threaded variant, the incoming stream is modelled as the list of
packets (byte chunks) that successive `socket.recv` calls return; a `recv`
after the last chunk returns the empty byte string (EOF).  `recv k` returns
at most `k` bytes: if the first pending chunk is longer than `k`, the rest of
it stays in the stream.  A `Chunks` value with all chunks nonempty models a
peer that delivered `flatten chunks` bytes and then closed. -/
abbrev Chunks := List (List Nat)

/-- One `sock.recv k` call on a chunked stream: the bytes returned and the
remaining stream.  An exhausted stream returns `[]` (Python `b''`, EOF). -/
def recv (k : Nat) (chunks : Chunks) : List Nat × Chunks :=
  match chunks with
  | [] => ([], [])
  | c :: rest =>
    if c.length ≤ k then (c, rest) else (c.take k, c.drop k :: rest)

/-- `MessageServer._recvall(sock, n)` from `src/p2pfs/core/utils.py`:
loop `recv`-ing until `n` bytes are accumulated; `EOFError` if a `recv`
returns the empty byte string first.  Structurally recursive on the chunk
list: each step either finishes or consumes one whole chunk. -/
def recvall (chunks : Chunks) (n : Nat) : Except PyError (List Nat × Chunks) :=
  if h : n = 0 then .ok ([], chunks)
  else
    match chunks with
    | [] => .error .eofError
    | c :: rest =>
      if c = [] then .error .eofError
      else if hc : c.length ≤ n then
        match recvall rest (n - c.length) with
        | .ok (data, rem) => .ok (c ++ data, rem)
        | .error e => .error e
      else
        .ok (c.take n, c.drop n :: rest)

theorem recvall_zero (chunks : Chunks) : recvall chunks 0 = .ok ([], chunks) := by
  unfold recvall
  simp

theorem recvall_nil {n : Nat} (h : n ≠ 0) : recvall [] n = .error .eofError := by
  unfold recvall
  simp [h]

theorem recvall_cons_empty {n : Nat} {rest : Chunks} (h : n ≠ 0) :
    recvall ([] :: rest) n = .error .eofError := by
  unfold recvall
  simp [h]

theorem recvall_cons_whole {n : Nat} {c : List Nat} {rest : Chunks}
    (h : n ≠ 0) (hcne : c ≠ []) (hc : c.length ≤ n) :
    recvall (c :: rest) n =
      match recvall rest (n - c.length) with
      | .ok (data, rem) => .ok (c ++ data, rem)
      | .error e => .error e := by
  conv_lhs => unfold recvall
  simp [h, hcne, hc]

theorem recvall_cons_part {n : Nat} {c : List Nat} {rest : Chunks}
    (h : n ≠ 0) (hcne : c ≠ []) (hc : ¬ c.length ≤ n) :
    recvall (c :: rest) n = .ok (c.take n, c.drop n :: rest) := by
  conv_lhs => unfold recvall
  simp [h, hcne, hc]

/-- `recvall` returns exactly the first `n` bytes of the flattened stream,
independently of the chunk partition, whenever the peer delivered at least
`n` bytes in nonempty packets. -/
theorem recvall_ok (chunks : Chunks) (n : Nat)
    (hne : ∀ c ∈ chunks, c ≠ [])
    (hlen : n ≤ chunks.flatten.length) :
    ∃ rem, recvall chunks n = .ok (chunks.flatten.take n, rem) ∧
      rem.flatten = chunks.flatten.drop n ∧ (∀ c ∈ rem, c ≠ []) := by
  induction chunks generalizing n with
  | nil =>
    refine ⟨[], ?_, by simp, by simp⟩
    simp only [List.flatten_nil, List.length_nil, Nat.le_zero] at hlen
    subst hlen
    simp [recvall_zero]
  | cons c rest ih =>
    by_cases hn : n = 0
    · subst hn
      exact ⟨c :: rest, by simp [recvall_zero], by simp, hne⟩
    · have hcne : c ≠ [] := hne c (by simp)
      by_cases hc : c.length ≤ n
      · have hrest : n - c.length ≤ rest.flatten.length := by
          simp only [List.flatten_cons, List.length_append] at hlen
          omega
        obtain ⟨rem, hrec, hflat, hnerem⟩ :=
          ih (n - c.length) (fun d hd => hne d (List.mem_cons_of_mem _ hd)) hrest
        refine ⟨rem, ?_, ?_, hnerem⟩
        · rw [recvall_cons_whole hn hcne hc, hrec]
          simp only [List.flatten_cons]
          rw [List.take_append_eq_append_take, List.take_of_length_le hc]
        · rw [hflat]
          simp only [List.flatten_cons]
          rw [List.drop_append_eq_append_drop, List.drop_eq_nil_of_le hc,
            List.nil_append]
      · refine ⟨c.drop n :: rest, ?_, ?_, ?_⟩
        · rw [recvall_cons_part hn hcne hc]
          simp only [List.flatten_cons]
          rw [List.take_append_of_le_length (by omega)]
        · simp only [List.flatten_cons]
          rw [List.drop_append_of_le_length (by omega)]
        · intro d hd
          rw [List.mem_cons] at hd
          rcases hd with hd | hd
          · subst hd
            intro hcon
            have := List.drop_eq_nil_iff.mp hcon
            omega
          · exact hne d (List.mem_cons_of_mem _ hd)

/-- `recvall` raises `EOFError` whenever the peer delivered fewer than `n`
bytes before closing. -/
theorem recvall_eof (chunks : Chunks) (n : Nat)
    (hlen : chunks.flatten.length < n) :
    recvall chunks n = .error .eofError := by
  induction chunks generalizing n with
  | nil =>
    have hn : n ≠ 0 := by
      simp only [List.flatten_nil, List.length_nil] at hlen
      omega
    exact recvall_nil hn
  | cons c rest ih =>
    have hn : n ≠ 0 := by
      simp only [List.flatten_cons, List.length_append] at hlen
      omega
    by_cases hcne : c = []
    · subst hcne
      exact recvall_cons_empty hn
    · have hc : c.length ≤ n := by
        simp only [List.flatten_cons, List.length_append] at hlen
        omega
      have hrest : rest.flatten.length < n - c.length := by
        simp only [List.flatten_cons, List.length_append] at hlen
        omega
      rw [recvall_cons_whole hn hcne hc, ih _ hrest]

/-! ## Python's `json` library: text layer

`json.dumps` / `json.loads` are modelled character by character from CPython's
`json/encoder.py` (`py_encode_basestring_ascii`, default `ensure_ascii=True`
and default separators `', '` / `': '`) and `json/decoder.py`
(`py_scanstring`, `JSONArray`, `JSONObject`, strict mode).  Text strings are
lists of Unicode code points.  The model omits floating-point numbers
(`NaN`/`Infinity`/fractions/exponents): the repository's messages carry only
null, booleans, integers, strings, arrays and objects, and `json.dumps`
never emits a float for these. -/

/-- JSON whitespace skipped by the decoder: space, tab, newline, carriage
return. -/
def isWs (c : Nat) : Bool := c = 32 || c = 9 || c = 10 || c = 13

def skipWs (s : List Nat) : List Nat := s.dropWhile isWs

def isDigit (c : Nat) : Bool := 48 ≤ c && c ≤ 57

/-- Little-endian base-10 digits of `n` (fuel-indexed so that it is
structurally recursive; `fuel ≥ n` suffices). -/
def natDigitsLE : Nat → Nat → List Nat
  | _, 0 => []
  | 0, _ => []
  | fuel + 1, n => n % 10 :: natDigitsLE fuel (n / 10)

theorem natDigitsLE_eq_digits (fuel n : Nat) (h : n ≤ fuel) :
    natDigitsLE fuel n = Nat.digits 10 n := by
  induction fuel generalizing n with
  | zero =>
    interval_cases n
    simp [natDigitsLE]
  | succ f ih =>
    match n with
    | 0 => simp [natDigitsLE]
    | m + 1 =>
      have hstep : natDigitsLE (f + 1) (m + 1) =
          (m + 1) % 10 :: natDigitsLE f ((m + 1) / 10) := rfl
      rw [hstep, Nat.digits_def' (b := 10) (by norm_num) (Nat.succ_pos m),
        ih ((m + 1) / 10) (by omega)]

/-- `str(n)` for a natural number: its decimal digit characters. -/
def dumpNat (n : Nat) : List Nat :=
  if n = 0 then [48] else (natDigitsLE n n).reverse.map (· + 48)

/-- `str(i)` for a Python int as emitted by `json.dumps`. -/
def dumpInt (i : Int) : List Nat :=
  if i < 0 then 45 :: dumpNat i.natAbs else dumpNat i.toNat

/-- Numeric value of a list of decimal digit characters. -/
def parseNatDigits (ds : List Nat) : Nat :=
  ds.foldl (fun a d => a * 10 + (d - 48)) 0

theorem dumpNat_digits (n : Nat) : ∀ c ∈ dumpNat n, isDigit c = true := by
  intro c hc
  unfold dumpNat at hc
  split at hc
  · simp at hc
    simp [hc, isDigit]
  · simp only [List.mem_map, List.mem_reverse] at hc
    obtain ⟨d, hd, rfl⟩ := hc
    rw [natDigitsLE_eq_digits n n le_rfl] at hd
    have := Nat.digits_lt_base (by norm_num) hd
    simp [isDigit]
    omega

theorem parseNatDigits_dumpNat (n : Nat) : parseNatDigits (dumpNat n) = n := by
  unfold dumpNat
  split
  · subst ‹n = 0›
    rfl
  · rw [natDigitsLE_eq_digits n n le_rfl]
    unfold parseNatDigits
    rw [List.foldl_map, List.foldl_reverse]
    have : ∀ (L : List Nat) (a : Nat), (∀ d ∈ L, d < 10) →
        L.foldr (fun d a => a * 10 + (d + 48 - 48)) a = Nat.ofDigits 10 L + a * 10 ^ L.length := by
      intro L
      induction L with
      | nil => intro a _; simp [Nat.ofDigits]
      | cons d tl ih =>
        intro a hlt
        simp only [List.foldr_cons, Nat.ofDigits_cons]
        rw [ih _ (fun x hx => hlt x (List.mem_cons_of_mem _ hx))]
        simp only [List.length_cons]
        ring_nf
        omega
    rw [this _ 0 (fun d hd => Nat.digits_lt_base (by norm_num) hd)]
    simp [Nat.ofDigits_digits]

/-- The most significant printed digit of a positive number is not `'0'`. -/
theorem dumpNat_head?_ne_zero (n : Nat) (hn : n ≠ 0) :
    ∀ d, (dumpNat n).head? = some d → d ≠ 48 := by
  unfold dumpNat
  rw [if_neg hn, natDigitsLE_eq_digits n n le_rfl]
  have hne : Nat.digits 10 n ≠ [] := Nat.digits_ne_nil_iff_ne_zero.mpr hn
  have hlast := Nat.getLast_digit_ne_zero 10 hn
  intro d hd
  rw [List.head?_map, List.head?_reverse,
    List.getLast?_eq_getLast _ hne] at hd
  simp only [Option.map_some', Option.some.injEq] at hd
  intro hcon
  omega

/-! ### Hexadecimal (`\uXXXX` escapes) -/

/-- Lowercase hex digit character of `n < 16` (CPython formats `\uXXXX`
with `'%04x'`, lowercase). -/
def toHexDigit (n : Nat) : Nat := if n < 10 then 48 + n else 87 + n

/-- Value of a hex digit character (the decoder accepts both cases). -/
def ofHexDigit (c : Nat) : Option Nat :=
  if 48 ≤ c ∧ c ≤ 57 then some (c - 48)
  else if 97 ≤ c ∧ c ≤ 102 then some (c - 87)
  else if 65 ≤ c ∧ c ≤ 70 then some (c - 55)
  else none

def toHex4 (n : Nat) : List Nat :=
  [toHexDigit (n / 4096 % 16), toHexDigit (n / 256 % 16),
   toHexDigit (n / 16 % 16), toHexDigit (n % 16)]

def readHex4 : List Nat → Option (Nat × List Nat)
  | c0 :: c1 :: c2 :: c3 :: rest =>
    match ofHexDigit c0, ofHexDigit c1, ofHexDigit c2, ofHexDigit c3 with
    | some d0, some d1, some d2, some d3 =>
      some (d0 * 4096 + d1 * 256 + d2 * 16 + d3, rest)
    | _, _, _, _ => none
  | _ => none

theorem ofHexDigit_toHexDigit (n : Nat) (h : n < 16) :
    ofHexDigit (toHexDigit n) = some n := by
  unfold toHexDigit ofHexDigit
  split_ifs <;> (first | (congr 1; omega) | omega)

theorem readHex4_toHex4 (n : Nat) (h : n < 65536) (rest : List Nat) :
    readHex4 (toHex4 n ++ rest) = some (n, rest) := by
  unfold toHex4 readHex4
  simp only [List.cons_append, List.nil_append]
  rw [ofHexDigit_toHexDigit _ (Nat.mod_lt _ (by norm_num)),
    ofHexDigit_toHexDigit _ (Nat.mod_lt _ (by norm_num)),
    ofHexDigit_toHexDigit _ (Nat.mod_lt _ (by norm_num)),
    ofHexDigit_toHexDigit _ (Nat.mod_lt _ (by norm_num))]
  simp only
  congr 2
  omega

/-! ### String escaping (`py_encode_basestring_ascii` / `py_scanstring`) -/

/-- A code point is a Unicode scalar value (what a well-formed text string
contains: below `0x110000` and not a surrogate). -/
def isScalar (c : Nat) : Bool := c < 1114112 && !(55296 ≤ c && c < 57344)

/-- High half of the UTF-16 surrogate pair of an astral code point. -/
def toSurrHi (c : Nat) : Nat := 55296 + (c - 65536) / 1024

/-- Low half of the UTF-16 surrogate pair of an astral code point. -/
def toSurrLo (c : Nat) : Nat := 56320 + (c - 65536) % 1024

/-- `py_encode_basestring_ascii` on one character: `\"`, `\\`, the short
escapes for `\b \t \n \f \r`, printable ASCII (`0x20`–`0x7E`) literally,
everything else as `\uXXXX` (a surrogate pair for astral characters). -/
def escChar (c : Nat) : List Nat :=
  if c = 34 then [92, 34]
  else if c = 92 then [92, 92]
  else if c = 8 then [92, 98]
  else if c = 9 then [92, 116]
  else if c = 10 then [92, 110]
  else if c = 12 then [92, 102]
  else if c = 13 then [92, 114]
  else if 32 ≤ c ∧ c ≤ 126 then [c]
  else if c < 65536 then 92 :: 117 :: toHex4 c
  else 92 :: 117 :: toHex4 (toSurrHi c) ++ 92 :: 117 :: toHex4 (toSurrLo c)

/-- Escaped body of a string (without the surrounding quotes). -/
def escStr (s : List Nat) : List Nat := (s.map escChar).flatten

/-- `json.dumps` of a string: quote, escaped body, quote. -/
def dumpStr (s : List Nat) : List Nat := 34 :: escStr s ++ [34]

/-- Prepend a decoded character to a string-parser result. -/
def consStr (c : Nat) : Option (List Nat × List Nat) → Option (List Nat × List Nat)
  | some (s, r) => some (c :: s, r)
  | none => none

/-- Continuation type for the string-body parser. -/
abbrev StrK := List Nat → Option (List Nat × List Nat)

/-- Second half of a `\uXXXX\uXXXX` surrogate pair: `r` is the result of
reading four hex digits after the second `\u`; `u` is the high surrogate and
`rest3` the input right after it (CPython combines the pair, and keeps the
lone high surrogate when the low half does not follow). -/
def parseULo (k : StrK) (u : Nat) (rest3 : List Nat) :
    Option (Nat × List Nat) → Option (List Nat × List Nat)
  | some (u2, rest5) =>
    if 56320 ≤ u2 ∧ u2 ≤ 57343 then
      consStr (65536 + (u - 55296) * 1024 + (u2 - 56320)) (k rest5)
    else consStr u (k rest3)
  | none => consStr u (k rest3)

/-- Value decoded from one `\uXXXX` escape (`u`), with surrogate-pair
lookahead on the remaining input `rest3`. -/
def parseUVal (k : StrK) (u : Nat) (rest3 : List Nat) :
    Option (List Nat × List Nat) :=
  if 55296 ≤ u ∧ u ≤ 56319 then
    match rest3 with
    | 92 :: 117 :: rest4 => parseULo k u rest3 (readHex4 rest4)
    | _ => consStr u (k rest3)
  else consStr u (k rest3)

def parseUTop (k : StrK) : Option (Nat × List Nat) → Option (List Nat × List Nat)
  | none => none
  | some (u, rest3) => parseUVal k u rest3

/-- A `\u` escape: read four hex digits, then surrogate handling. -/
def parseU (k : StrK) (rest2 : List Nat) : Option (List Nat × List Nat) :=
  parseUTop k (readHex4 rest2)

/-- Handler for a backslash escape (the part of `py_scanstring` after a
`\`); `k` is the continuation parsing the remaining body. -/
def parseEsc (k : StrK) : List Nat → Option (List Nat × List Nat)
  | [] => none
  | e :: rest2 =>
    if e = 34 then consStr 34 (k rest2)
    else if e = 92 then consStr 92 (k rest2)
    else if e = 47 then consStr 47 (k rest2)
    else if e = 98 then consStr 8 (k rest2)
    else if e = 102 then consStr 12 (k rest2)
    else if e = 110 then consStr 10 (k rest2)
    else if e = 114 then consStr 13 (k rest2)
    else if e = 116 then consStr 9 (k rest2)
    else if e = 117 then parseU k rest2
    else none

/-- `py_scanstring` after the opening quote (strict mode): literal
characters up to the closing quote, backslash escapes, `\uXXXX` with
surrogate-pair combination, raw control characters rejected.  Fuel-indexed
(one unit per decoded character); `fuel > length of the decoded string`
suffices. -/
def parseStrBody : Nat → List Nat → Option (List Nat × List Nat)
  | 0, _ => none
  | _ + 1, [] => none
  | fuel + 1, c :: rest =>
    if c = 34 then some ([], rest)
    else if c = 92 then parseEsc (parseStrBody fuel) rest
    else if c < 32 then none
    else consStr c (parseStrBody fuel rest)

theorem parseStrBody_succ (fuel c : Nat) (rest : List Nat) :
    parseStrBody (fuel + 1) (c :: rest) =
      if c = 34 then some ([], rest)
      else if c = 92 then parseEsc (parseStrBody fuel) rest
      else if c < 32 then none
      else consStr c (parseStrBody fuel rest) := rfl

theorem parseEsc_117 (k : StrK) (rest2 : List Nat) :
    parseEsc k (117 :: rest2) = parseU k rest2 := rfl

theorem parseUTop_some (k : StrK) (u : Nat) (rest3 : List Nat) :
    parseUTop k (some (u, rest3)) = parseUVal k u rest3 := rfl

theorem parseUVal_pair (k : StrK) (u : Nat) (rest4 : List Nat) :
    parseUVal k u (92 :: 117 :: rest4) =
      if 55296 ≤ u ∧ u ≤ 56319 then parseULo k u (92 :: 117 :: rest4) (readHex4 rest4)
      else consStr u (k (92 :: 117 :: rest4)) := rfl

theorem parseULo_some (k : StrK) (u : Nat) (rest3 : List Nat) (u2 : Nat)
    (rest5 : List Nat) :
    parseULo k u rest3 (some (u2, rest5)) =
      if 56320 ≤ u2 ∧ u2 ≤ 57343 then
        consStr (65536 + (u - 55296) * 1024 + (u2 - 56320)) (k rest5)
      else consStr u (k rest3) := rfl

/-- Decoding one escaped character: the parser consumes exactly `escChar c`
and recurses. -/
theorem parseStrBody_escChar (c : Nat) (hc : isScalar c = true)
    (fuel : Nat) (rest : List Nat) :
    parseStrBody (fuel + 1) (escChar c ++ rest) =
      consStr c (parseStrBody fuel rest) := by
  simp only [isScalar, Bool.and_eq_true, Bool.not_eq_true', Bool.and_eq_false_iff,
    decide_eq_true_eq, decide_eq_false_iff_not, not_le, not_lt] at hc
  obtain ⟨hlt, hsurr⟩ := hc
  unfold escChar
  by_cases h34 : c = 34
  · subst h34; rfl
  · rw [if_neg h34]
    by_cases h92 : c = 92
    · subst h92; rfl
    · rw [if_neg h92]
      by_cases h8 : c = 8
      · subst h8; rfl
      · rw [if_neg h8]
        by_cases h9 : c = 9
        · subst h9; rfl
        · rw [if_neg h9]
          by_cases h10 : c = 10
          · subst h10; rfl
          · rw [if_neg h10]
            by_cases h12 : c = 12
            · subst h12; rfl
            · rw [if_neg h12]
              by_cases h13 : c = 13
              · subst h13; rfl
              · rw [if_neg h13]
                by_cases hprint : 32 ≤ c ∧ c ≤ 126
                · rw [if_pos hprint]
                  show parseStrBody (fuel + 1) (c :: rest) = _
                  rw [parseStrBody_succ, if_neg h34, if_neg h92,
                    if_neg (by omega : ¬ c < 32)]
                · rw [if_neg hprint]
                  by_cases hbmp : c < 65536
                  · rw [if_pos hbmp]
                    show parseStrBody (fuel + 1) (92 :: (117 :: (toHex4 c ++ rest))) = _
                    rw [parseStrBody_succ, if_neg (by norm_num : ¬ (92 : Nat) = 34),
                      if_pos rfl, parseEsc_117]
                    unfold parseU
                    rw [readHex4_toHex4 c hbmp rest, parseUTop_some]
                    unfold parseUVal
                    rw [if_neg (by omega : ¬ (55296 ≤ c ∧ c ≤ 56319))]
                  · rw [if_neg hbmp]
                    have hhi : toSurrHi c < 65536 := by
                      unfold toSurrHi
                      omega
                    have hlo : toSurrLo c < 65536 := by
                      unfold toSurrLo
                      omega
                    show parseStrBody (fuel + 1)
                      (92 :: (117 :: ((toHex4 (toSurrHi c) ++
                        (92 :: 117 :: toHex4 (toSurrLo c))) ++ rest))) = _
                    rw [parseStrBody_succ, if_neg (by norm_num : ¬ (92 : Nat) = 34),
                      if_pos rfl, parseEsc_117]
                    unfold parseU
                    rw [List.append_assoc]
                    simp only [List.cons_append]
                    rw [readHex4_toHex4 _ hhi, parseUTop_some, parseUVal_pair,
                      if_pos (by unfold toSurrHi; omega :
                        55296 ≤ toSurrHi c ∧ toSurrHi c ≤ 56319),
                      readHex4_toHex4 _ hlo, parseULo_some,
                      if_pos (by unfold toSurrLo; omega :
                        56320 ≤ toSurrLo c ∧ toSurrLo c ≤ 57343)]
                    have hval : 65536 + (toSurrHi c - 55296) * 1024 +
                        (toSurrLo c - 56320) = c := by
                      unfold toSurrHi toSurrLo
                      omega
                    rw [hval]

/-- Round trip for string bodies: parsing the escaped body followed by the
closing quote recovers the original scalar string. -/
theorem parseStrBody_escStr (s : List Nat) :
    ∀ fuel rest, (∀ c ∈ s, isScalar c = true) → s.length < fuel →
    parseStrBody fuel (escStr s ++ 34 :: rest) = some (s, rest) := by
  induction s with
  | nil =>
    intro fuel rest _ hfuel
    match fuel, hfuel with
    | f + 1, _ =>
      simp only [escStr, List.map_nil, List.flatten_nil, List.nil_append]
      rfl
  | cons c tl ih =>
    intro fuel rest hsc hfuel
    match fuel, hfuel with
    | f + 1, hfuel =>
      have hbody : escStr (c :: tl) = escChar c ++ escStr tl := by
        simp [escStr]
      rw [hbody, List.append_assoc,
        parseStrBody_escChar c (hsc c (by simp)) f _,
        ih f rest (fun d hd => hsc d (List.mem_cons_of_mem _ hd))
          (by simp at hfuel ⊢; omega)]
      rfl

/-! ### Python values and `json.dumps` -/

/-- A Python value as handed to `json.dumps`: the JSON-compatible
constructors (`None`, `bool`, `int`, `str`, `list`, `dict` with string keys,
which is what the repository's messages consist of), plus `pyset`, a
representative object that is not JSON serializable. -/
inductive PyVal where
  | pynull
  | pybool (b : Bool)
  | pyint (i : Int)
  | pystr (s : List Nat)
  | pylist (xs : List PyVal)
  | pydict (kvs : List (List Nat × PyVal))
  | pyset (xs : List PyVal)

/-- `", ".join` (the default item separator of `json.dumps`). -/
def joinComma : List (List Nat) → List Nat
  | [] => []
  | [p] => p
  | p :: q :: tl => p ++ 44 :: 32 :: joinComma (q :: tl)

mutual
/-- `json.dumps` with default options (`ensure_ascii=True`, separators
`', '` and `': '`): the serialized code-point string, or `TypeError` for a
non-serializable object. -/
def dumps : PyVal → Except PyError (List Nat)
  | .pynull => .ok [110, 117, 108, 108]
  | .pybool true => .ok [116, 114, 117, 101]
  | .pybool false => .ok [102, 97, 108, 115, 101]
  | .pyint i => .ok (dumpInt i)
  | .pystr s => .ok (dumpStr s)
  | .pylist xs =>
    match dumpsList xs with
    | .ok parts => .ok (91 :: (joinComma parts ++ [93]))
    | .error e => .error e
  | .pydict kvs =>
    match dumpsKVs kvs with
    | .ok parts => .ok (123 :: (joinComma parts ++ [125]))
    | .error e => .error e
  | .pyset _ => .error .typeError

def dumpsList : List PyVal → Except PyError (List (List Nat))
  | [] => .ok []
  | v :: tl =>
    match dumps v with
    | .ok s =>
      match dumpsList tl with
      | .ok rest => .ok (s :: rest)
      | .error e => .error e
    | .error e => .error e

def dumpsKVs : List (List Nat × PyVal) → Except PyError (List (List Nat))
  | [] => .ok []
  | (k, v) :: tl =>
    match dumps v with
    | .ok s =>
      match dumpsKVs tl with
      | .ok rest => .ok ((dumpStr k ++ 58 :: 32 :: s) :: rest)
      | .error e => .error e
    | .error e => .error e
end

mutual
/-- Well-formedness of a message value: JSON-serializable (no `pyset`),
all strings made of Unicode scalar values, and no duplicate keys inside any
dict (a real Python `dict` cannot hold duplicate keys; the association-list
model has to say so). -/
def wfV : PyVal → Bool
  | .pynull => true
  | .pybool _ => true
  | .pyint _ => true
  | .pystr s => s.all isScalar
  | .pylist xs => wfL xs
  | .pydict kvs => (decide (kvs.map Prod.fst).Nodup) && wfD kvs
  | .pyset _ => false

def wfL : List PyVal → Bool
  | [] => true
  | v :: tl => wfV v && wfL tl

def wfD : List (List Nat × PyVal) → Bool
  | [] => true
  | (k, v) :: tl => k.all isScalar && wfV v && wfD tl
end

mutual
/-- Fuel measure for the recursive-descent parser. -/
def sizeV : PyVal → Nat
  | .pylist xs => 1 + sizeL xs
  | .pydict kvs => 1 + sizeD kvs
  | _ => 1

def sizeL : List PyVal → Nat
  | [] => 0
  | v :: tl => 1 + sizeV v + sizeL tl

def sizeD : List (List Nat × PyVal) → Nat
  | [] => 0
  | (_, v) :: tl => 1 + sizeV v + sizeD tl
end

/-! ### `json.loads` -/

/-- Key lookup in the association-list model of a dict (`d[k]`). -/
def lookupKey (k : List Nat) : List (List Nat × PyVal) → Option PyVal
  | [] => none
  | (k', v) :: tl => if k' = k then some v else lookupKey k tl

/-- `d[k] = v` on a Python dict: updates the value in place if the key is
present (keeping its position), appends otherwise.  `dict(pairs)` is a fold
of this, which is how the decoder builds objects. -/
def dictInsert : List (List Nat × PyVal) → List Nat → PyVal → List (List Nat × PyVal)
  | [], k, v => [(k, v)]
  | (k', v') :: tl, k, v =>
    if k' = k then (k', v) :: tl else (k', v') :: dictInsert tl k v

/-- `dict(pairs)`: left fold of in-place insertion over the parsed pairs. -/
def dictFold (ps : List (List Nat × PyVal)) : List (List Nat × PyVal) :=
  ps.foldl (fun acc p => dictInsert acc p.1 p.2) []

/-- A decimal integer token may not be continued by a digit or by the float
continuations `.`/`e`/`E` (the model has no floats; the repository's
messages carry none). -/
def numBoundaryOk (r : List Nat) : Bool :=
  match r with
  | [] => true
  | c :: _ => !(isDigit c || c = 46 || c = 101 || c = 69)

/-- Scan an unsigned decimal integer token (JSON forbids leading zeros). -/
def parseNatTok (input : List Nat) : Option (Nat × List Nat) :=
  let ds := input.takeWhile isDigit
  let r := input.dropWhile isDigit
  if ds.isEmpty then none
  else if 1 < ds.length ∧ ds.head? = some 48 then none
  else if numBoundaryOk r then some (parseNatDigits ds, r) else none

/-- Scan a (possibly negative) integer literal. -/
def parseNum (input : List Nat) : Option (PyVal × List Nat) :=
  match input with
  | [] => none
  | c :: rest =>
    if c = 45 then
      match parseNatTok rest with
      | some (n, r) => some (.pyint (-(n : Int)), r)
      | none => none
    else
      match parseNatTok (c :: rest) with
      | some (n, r) => some (.pyint (n : Int), r)
      | none => none

/-- Body of an array after `[` and whitespace: `]` closes the empty array,
anything else is an element list parsed by `pItems`. -/
def parseListBody (pItems : List Nat → Option (List PyVal × List Nat))
    (r : List Nat) : Option (PyVal × List Nat) :=
  match r with
  | 93 :: r2 => some (.pylist [], r2)
  | _ =>
    match pItems r with
    | some (vs, r2) => some (.pylist vs, r2)
    | none => none

/-- Body of an object after `{` and whitespace: `}` closes the empty
object, anything else is a member list parsed by `pPairs` (built into a
dict by `dictFold`). -/
def parseDictBody (pPairs : List Nat → Option (List (List Nat × PyVal) × List Nat))
    (r : List Nat) : Option (PyVal × List Nat) :=
  match r with
  | 125 :: r2 => some (.pydict [], r2)
  | _ =>
    match pPairs r with
    | some (ps, r2) => some (.pydict (dictFold ps), r2)
    | none => none

mutual
/-- `_json.scan_once` (pure-Python `py_make_scanner`): dispatch on the first
character; `null`/`true`/`false` literals, strings, integers, arrays,
objects.  Fuel decreases at each nesting step; `input.length + 1` always
suffices. -/
def parseVal : Nat → List Nat → Option (PyVal × List Nat)
  | 0, _ => none
  | _ + 1, [] => none
  | fuel + 1, c :: rest =>
    if c = 110 then
      match rest with
      | 117 :: 108 :: 108 :: r => some (.pynull, r)
      | _ => none
    else if c = 116 then
      match rest with
      | 114 :: 117 :: 101 :: r => some (.pybool true, r)
      | _ => none
    else if c = 102 then
      match rest with
      | 97 :: 108 :: 115 :: 101 :: r => some (.pybool false, r)
      | _ => none
    else if c = 34 then
      match parseStrBody (rest.length + 1) rest with
      | some (s, r) => some (.pystr s, r)
      | none => none
    else if c = 45 ∨ isDigit c = true then parseNum (c :: rest)
    else if c = 91 then parseListBody (parseItems fuel) (skipWs rest)
    else if c = 123 then parseDictBody (parsePairs fuel) (skipWs rest)
    else none

/-- `JSONArray` element loop (whitespace already skipped before the first
element). -/
def parseItems : Nat → List Nat → Option (List PyVal × List Nat)
  | 0, _ => none
  | fuel + 1, input =>
    match parseVal fuel input with
    | some (v, r1) =>
      (match skipWs r1 with
      | 44 :: r2 =>
        (match parseItems fuel (skipWs r2) with
        | some (vs, r3) => some (v :: vs, r3)
        | none => none)
      | 93 :: r2 => some ([v], r2)
      | _ => none)
    | none => none

/-- `JSONObject` member loop (whitespace already skipped before the first
key; keys must be double-quoted strings). -/
def parsePairs : Nat → List Nat → Option (List (List Nat × PyVal) × List Nat)
  | 0, _ => none
  | fuel + 1, input =>
    match input with
    | 34 :: rest =>
      (match parseStrBody (rest.length + 1) rest with
      | some (k, r1) =>
        (match skipWs r1 with
        | 58 :: r2 =>
          (match parseVal fuel (skipWs r2) with
          | some (v, r3) =>
            (match skipWs r3 with
            | 44 :: r4 =>
              (match parsePairs fuel (skipWs r4) with
              | some (ps, r5) => some ((k, v) :: ps, r5)
              | none => none)
            | 125 :: r4 => some ([(k, v)], r4)
            | _ => none)
          | none => none)
        | _ => none)
      | none => none)
    | _ => none
end

/-- `json.loads`: skip leading whitespace, scan one value, require that only
whitespace follows; `JSONDecodeError` otherwise.  The fuel `length + 1`
always suffices, since the scanner consumes at least one character before
each recursive descent. -/
def loads (s : List Nat) : Except PyError PyVal :=
  match parseVal ((skipWs s).length + 1) (skipWs s) with
  | some (v, r) => if skipWs r = [] then .ok v else .error .jsonDecodeError
  | none => .error .jsonDecodeError

/-! ### Facts about the serialized text -/

theorem escChar_length_pos (c : Nat) : 1 ≤ (escChar c).length := by
  unfold escChar
  split_ifs <;> simp [toHex4]

theorem escStr_length_ge (s : List Nat) : s.length ≤ (escStr s).length := by
  induction s with
  | nil => simp [escStr]
  | cons c tl ih =>
    simp only [escStr, List.map_cons, List.flatten_cons, List.length_append,
      List.length_cons] at *
    have := escChar_length_pos c
    omega

theorem toHexDigit_lt (n : Nat) (h : n < 16) : toHexDigit n < 128 := by
  unfold toHexDigit
  split <;> omega

theorem toHex4_ascii (n : Nat) : ∀ d ∈ toHex4 n, d < 128 := by
  intro d hd
  simp only [toHex4, List.mem_cons, List.not_mem_nil, or_false] at hd
  rcases hd with rfl | rfl | rfl | rfl <;>
    exact toHexDigit_lt _ (Nat.mod_lt _ (by norm_num))

theorem escChar_ascii (c : Nat) : ∀ d ∈ escChar c, d < 128 := by
  intro d hd
  unfold escChar at hd
  split_ifs at hd with h1 h2 h3 h4 h5 h6 h7 h8 h9 <;>
    simp only [List.mem_cons, List.mem_append, List.not_mem_nil,
      or_false, List.cons_append, List.nil_append] at hd
  · omega
  · omega
  · omega
  · omega
  · omega
  · omega
  · omega
  · omega
  · rcases hd with rfl | rfl | hd
    · omega
    · omega
    · exact toHex4_ascii _ d hd
  · rcases hd with rfl | rfl | hd | rfl | rfl | hd
    · omega
    · omega
    · exact toHex4_ascii _ d hd
    · omega
    · omega
    · exact toHex4_ascii _ d hd

theorem dumpNat_ne_nil (n : Nat) : dumpNat n ≠ [] := by
  unfold dumpNat
  split
  · simp
  · rename_i hn
    rw [natDigitsLE_eq_digits n n le_rfl]
    have := (Nat.digits_ne_nil_iff_ne_zero (b := 10)).mpr hn
    simp [this]

theorem dumpInt_head (i : Int) :
    ∃ c cs, dumpInt i = c :: cs ∧ (c = 45 ∨ isDigit c = true) := by
  unfold dumpInt
  split
  · exact ⟨45, dumpNat i.natAbs, rfl, Or.inl rfl⟩
  · obtain ⟨c, cs, hc⟩ := List.exists_cons_of_ne_nil (dumpNat_ne_nil i.toNat)
    refine ⟨c, cs, hc, Or.inr ?_⟩
    exact dumpNat_digits _ c (hc ▸ List.mem_cons_self c cs)

theorem dumpInt_ascii (i : Int) : ∀ c ∈ dumpInt i, c < 128 := by
  intro c hc
  unfold dumpInt at hc
  have hdig : ∀ {m : Nat}, c ∈ dumpNat m → c < 128 := by
    intro m hm
    have := dumpNat_digits m c hm
    simp only [isDigit, Bool.and_eq_true, decide_eq_true_eq] at this
    omega
  split at hc
  · rcases List.mem_cons.mp hc with rfl | hc
    · omega
    · exact hdig hc
  · exact hdig hc

/-! ### Splitting an integer token from its continuation -/

theorem numBoundaryOk_head {r : List Nat} (h : numBoundaryOk r = true) :
    ∀ c cs, r = c :: cs → isDigit c = false := by
  intro c cs hr
  subst hr
  simp only [numBoundaryOk, Bool.not_eq_true', Bool.or_eq_false_iff,
    decide_eq_false_iff_not] at h
  exact h.1.1.1

theorem digits_split (l r : List Nat) (hl : ∀ c ∈ l, isDigit c = true)
    (hr : numBoundaryOk r = true) :
    (l ++ r).takeWhile isDigit = l ∧ (l ++ r).dropWhile isDigit = r := by
  induction l with
  | nil =>
    simp only [List.nil_append]
    cases r with
    | nil => simp
    | cons c cs =>
      have := numBoundaryOk_head hr c cs rfl
      simp [List.takeWhile_cons, List.dropWhile_cons, this]
  | cons c tl ih =>
    have hc := hl c (by simp)
    obtain ⟨h1, h2⟩ := ih (fun d hd => hl d (List.mem_cons_of_mem _ hd))
    simp [List.takeWhile_cons, List.dropWhile_cons, hc, h1, h2]

theorem parseNatTok_dumpNat (n : Nat) (rest : List Nat)
    (hb : numBoundaryOk rest = true) :
    parseNatTok (dumpNat n ++ rest) = some (n, rest) := by
  obtain ⟨ht, hd⟩ := digits_split (dumpNat n) rest (dumpNat_digits n) hb
  unfold parseNatTok
  simp only [ht, hd]
  rw [if_neg, if_neg, if_pos hb, parseNatDigits_dumpNat]
  · rcases Nat.eq_zero_or_pos n with rfl | hn
    · intro hcon
      simp [dumpNat] at hcon
    · intro hcon
      exact dumpNat_head?_ne_zero n (by omega) 48 hcon.2 rfl
  · simp [List.isEmpty_iff, dumpNat_ne_nil]

theorem parseNum_cons (c : Nat) (rest : List Nat) :
    parseNum (c :: rest) =
      if c = 45 then
        match parseNatTok rest with
        | some (n, r) => some (.pyint (-(n : Int)), r)
        | none => none
      else
        match parseNatTok (c :: rest) with
        | some (n, r) => some (.pyint (n : Int), r)
        | none => none := rfl

theorem parseNum_dumpInt (i : Int) (rest : List Nat)
    (hb : numBoundaryOk rest = true) :
    parseNum (dumpInt i ++ rest) = some (.pyint i, rest) := by
  unfold dumpInt
  split
  · rename_i hneg
    show parseNum (45 :: (dumpNat i.natAbs ++ rest)) = _
    rw [parseNum_cons, if_pos rfl, parseNatTok_dumpNat _ _ hb]
    simp only [Option.some.injEq, Prod.mk.injEq, PyVal.pyint.injEq]
    exact ⟨by omega, trivial⟩
  · rename_i hpos
    obtain ⟨c, cs, hc, hcd⟩ := dumpInt_head i
    unfold dumpInt at hc
    rw [if_neg hpos] at hc
    have hcne : c ≠ 45 := by
      rcases hcd with rfl | hcd
      · have := dumpNat_digits i.toNat 45 (hc ▸ List.mem_cons_self _ _)
        simp [isDigit] at this
      · simp only [isDigit, Bool.and_eq_true, decide_eq_true_eq] at hcd
        omega
    rw [hc]
    show parseNum (c :: (cs ++ rest)) = _
    rw [parseNum_cons, if_neg hcne,
      show c :: (cs ++ rest) = (c :: cs) ++ rest from rfl, ← hc,
      parseNatTok_dumpNat _ _ hb]
    simp only [Option.some.injEq, Prod.mk.injEq, PyVal.pyint.injEq]
    exact ⟨by omega, trivial⟩

theorem escStr_ascii (s : List Nat) : ∀ c ∈ escStr s, c < 128 := by
  intro c hc
  obtain ⟨l, hl, hcl⟩ := List.mem_flatten.mp hc
  obtain ⟨d, _, rfl⟩ := List.mem_map.mp hl
  exact escChar_ascii d c hcl

theorem dumpStr_ascii (s : List Nat) : ∀ c ∈ dumpStr s, c < 128 := by
  intro c hc
  rcases List.mem_cons.mp hc with rfl | hc1
  · omega
  rcases List.mem_append.mp hc1 with hc2 | hc2
  · exact escStr_ascii s c hc2
  · rcases List.mem_singleton.mp hc2 with rfl
    omega

theorem joinComma_cons2 (p q : List Nat) (tl : List (List Nat)) :
    joinComma (p :: q :: tl) = p ++ 44 :: 32 :: joinComma (q :: tl) := rfl

theorem dumpsList_cons (v : PyVal) (tl : List PyVal) :
    dumpsList (v :: tl) =
      match dumps v with
      | .ok s =>
        (match dumpsList tl with
        | .ok rest => .ok (s :: rest)
        | .error e => .error e)
      | .error e => .error e := by
  simp [dumpsList]

theorem dumpsKVs_cons (k : List Nat) (v : PyVal) (tl : List (List Nat × PyVal)) :
    dumpsKVs ((k, v) :: tl) =
      match dumps v with
      | .ok s =>
        (match dumpsKVs tl with
        | .ok rest => .ok ((dumpStr k ++ 58 :: 32 :: s) :: rest)
        | .error e => .error e)
      | .error e => .error e := by
  simp [dumpsKVs]

theorem sizeV_pos (v : PyVal) : 1 ≤ sizeV v := by
  cases v <;> simp [sizeV]

theorem dumpsList_nil_of_ok_nil {tl : List PyVal}
    (h : dumpsList tl = .ok []) : tl = [] := by
  cases tl with
  | nil => rfl
  | cons v tl2 =>
    rw [dumpsList_cons] at h
    cases hv : dumps v with
    | error e => rw [hv] at h; cases h
    | ok sv =>
      rw [hv] at h
      cases htl : dumpsList tl2 with
      | error e => rw [htl] at h; cases h
      | ok ptl => rw [htl] at h; cases h

theorem dumpsKVs_nil_of_ok_nil {tl : List (List Nat × PyVal)}
    (h : dumpsKVs tl = .ok []) : tl = [] := by
  cases tl with
  | nil => rfl
  | cons kv tl2 =>
    obtain ⟨k, v⟩ := kv
    rw [dumpsKVs_cons] at h
    cases hv : dumps v with
    | error e => rw [hv] at h; cases h
    | ok sv =>
      rw [hv] at h
      cases htl : dumpsKVs tl2 with
      | error e => rw [htl] at h; cases h
      | ok ptl => rw [htl] at h; cases h

/-- Combined facts about serialized output, by strong induction on the
parser-fuel measure: every emitted character is ASCII, the output is at
least as long as the fuel the parser will need, and the first character is
never whitespace nor a closing bracket. -/
theorem dumps_facts : ∀ n : Nat,
    (∀ v s, sizeV v ≤ n → dumps v = .ok s →
      (∀ c ∈ s, c < 128) ∧ sizeV v ≤ s.length ∧
      ∃ c cs, s = c :: cs ∧ isWs c = false ∧ c ≠ 93 ∧ c ≠ 125) ∧
    (∀ xs parts, sizeL xs ≤ n → dumpsList xs = .ok parts →
      (∀ c ∈ joinComma parts, c < 128) ∧
      sizeL xs ≤ (joinComma parts).length + 1) ∧
    (∀ kvs parts, sizeD kvs ≤ n → dumpsKVs kvs = .ok parts →
      (∀ c ∈ joinComma parts, c < 128) ∧
      sizeD kvs ≤ (joinComma parts).length + 1) := by
  intro n
  induction n using Nat.strong_induction_on with
  | _ n ih =>
    refine ⟨?_, ?_, ?_⟩
    · intro v s hsz hs
      match v with
      | .pynull =>
        cases hs
        refine ⟨by decide, by simp [sizeV], 110, _, rfl, by decide, by decide, by decide⟩
      | .pybool true =>
        cases hs
        refine ⟨by decide, by simp [sizeV], 116, _, rfl, by decide, by decide, by decide⟩
      | .pybool false =>
        cases hs
        refine ⟨by decide, by simp [sizeV], 102, _, rfl, by decide, by decide, by decide⟩
      | .pyint i =>
        cases hs
        obtain ⟨c, cs, hc, hcd⟩ := dumpInt_head i
        have hcd' : c = 45 ∨ (48 ≤ c ∧ c ≤ 57) := by
          rcases hcd with rfl | hcd
          · exact Or.inl rfl
          · simp only [isDigit, Bool.and_eq_true, decide_eq_true_eq] at hcd
            exact Or.inr hcd
        refine ⟨dumpInt_ascii i, ?_, c, cs, hc, ?_, ?_, ?_⟩
        · rw [hc]
          have : sizeV (.pyint i) = 1 := by simp [sizeV]
          rw [this]
          simp
        · simp only [isWs, Bool.or_eq_false_iff, decide_eq_false_iff_not]
          omega
        · omega
        · omega
      | .pystr str =>
        cases hs
        refine ⟨dumpStr_ascii str, by simp [sizeV, dumpStr], 34, _, rfl,
          by decide, by decide, by decide⟩
      | .pylist xs =>
        rw [show dumps (.pylist xs) = (match dumpsList xs with
          | .ok parts => .ok (91 :: (joinComma parts ++ [93]))
          | .error e => .error e) from by simp [dumps]] at hs
        cases hxs : dumpsList xs with
        | error e => rw [hxs] at hs; cases hs
        | ok parts =>
          rw [hxs] at hs
          cases hs
          have hszl : sizeL xs ≤ n - 1 := by
            simp only [sizeV] at hsz
            omega
          have hn : 1 ≤ n := by
            simp only [sizeV] at hsz
            omega
          obtain ⟨hascii, hlen⟩ := (ih (n - 1) (by omega)).2.1 xs parts hszl hxs
          refine ⟨?_, ?_, 91, _, rfl, by decide, by decide, by decide⟩
          · intro c hc
            simp only [List.mem_cons, List.mem_append, List.not_mem_nil,
              or_false] at hc
            rcases hc with rfl | hc | rfl
            · omega
            · exact hascii c hc
            · omega
          · simp only [sizeV, List.length_cons, List.length_append,
              List.length_singleton]
            omega
      | .pydict kvs =>
        rw [show dumps (.pydict kvs) = (match dumpsKVs kvs with
          | .ok parts => .ok (123 :: (joinComma parts ++ [125]))
          | .error e => .error e) from by simp [dumps]] at hs
        cases hkvs : dumpsKVs kvs with
        | error e => rw [hkvs] at hs; cases hs
        | ok parts =>
          rw [hkvs] at hs
          cases hs
          have hszl : sizeD kvs ≤ n - 1 := by
            simp only [sizeV] at hsz
            omega
          have hn : 1 ≤ n := by
            simp only [sizeV] at hsz
            omega
          obtain ⟨hascii, hlen⟩ := (ih (n - 1) (by omega)).2.2 kvs parts hszl hkvs
          refine ⟨?_, ?_, 123, _, rfl, by decide, by decide, by decide⟩
          · intro c hc
            simp only [List.mem_cons, List.mem_append, List.not_mem_nil,
              or_false] at hc
            rcases hc with rfl | hc | rfl
            · omega
            · exact hascii c hc
            · omega
          · simp only [sizeV, List.length_cons, List.length_append,
              List.length_singleton]
            omega
      | .pyset xs =>
        rw [show dumps (.pyset xs) = .error .typeError from by simp [dumps]] at hs
        cases hs
    · intro xs parts hsz hxs
      match xs with
      | [] =>
        cases hxs
        exact ⟨by simp [joinComma], by simp [sizeL, joinComma]⟩
      | v :: tl =>
        rw [dumpsList_cons] at hxs
        cases hv : dumps v with
        | error e => rw [hv] at hxs; cases hxs
        | ok sv =>
          rw [hv] at hxs
          cases htl : dumpsList tl with
          | error e => rw [htl] at hxs; cases hxs
          | ok ptl =>
            rw [htl] at hxs
            cases hxs
            have hszv : sizeV v ≤ n - 1 := by
              simp only [sizeL] at hsz
              omega
            have hszt : sizeL tl ≤ n - 1 := by
              simp only [sizeL] at hsz
              have := sizeV_pos v
              omega
            have hn : 1 ≤ n := by
              simp only [sizeL] at hsz
              have := sizeV_pos v
              omega
            obtain ⟨hav, hlv, _⟩ := (ih (n - 1) (by omega)).1 v sv hszv hv
            obtain ⟨hat, hlt⟩ := (ih (n - 1) (by omega)).2.1 tl ptl hszt htl
            cases ptl with
            | nil =>
              have htlnil := dumpsList_nil_of_ok_nil htl
              subst htlnil
              refine ⟨by simpa [joinComma] using hav, ?_⟩
              simp only [sizeL, joinComma]
              omega
            | cons p2 ptl2 =>
              rw [joinComma_cons2]
              refine ⟨?_, ?_⟩
              · intro c hc
                rcases List.mem_append.mp hc with hc1 | hc1
                · exact hav c hc1
                · rcases List.mem_cons.mp hc1 with rfl | hc2
                  · omega
                  rcases List.mem_cons.mp hc2 with rfl | hc3
                  · omega
                  · exact hat c hc3
              · simp only [sizeL, List.length_append, List.length_cons]
                omega
    · intro kvs parts hsz hkvs
      match kvs with
      | [] =>
        cases hkvs
        exact ⟨by simp [joinComma], by simp [sizeD, joinComma]⟩
      | (k, v) :: tl =>
        rw [dumpsKVs_cons] at hkvs
        cases hv : dumps v with
        | error e => rw [hv] at hkvs; cases hkvs
        | ok sv =>
          rw [hv] at hkvs
          cases htl : dumpsKVs tl with
          | error e => rw [htl] at hkvs; cases hkvs
          | ok ptl =>
            rw [htl] at hkvs
            cases hkvs
            have hszv : sizeV v ≤ n - 1 := by
              simp only [sizeD] at hsz
              omega
            have hszt : sizeD tl ≤ n - 1 := by
              simp only [sizeD] at hsz
              have := sizeV_pos v
              omega
            have hn : 1 ≤ n := by
              simp only [sizeD] at hsz
              have := sizeV_pos v
              omega
            obtain ⟨hav, hlv, _⟩ := (ih (n - 1) (by omega)).1 v sv hszv hv
            obtain ⟨hat, hlt⟩ := (ih (n - 1) (by omega)).2.2 tl ptl hszt htl
            have hpart_ascii : ∀ c ∈ dumpStr k ++ 58 :: 32 :: sv, c < 128 := by
              intro c hc
              rcases List.mem_append.mp hc with hc1 | hc1
              · exact dumpStr_ascii k c hc1
              · rcases List.mem_cons.mp hc1 with rfl | hc2
                · omega
                rcases List.mem_cons.mp hc2 with rfl | hc3
                · omega
                · exact hav c hc3
            cases ptl with
            | nil =>
              have htlnil := dumpsKVs_nil_of_ok_nil htl
              subst htlnil
              refine ⟨by simpa [joinComma] using hpart_ascii, ?_⟩
              simp only [sizeD, joinComma, List.length_append, List.length_cons]
              omega
            | cons p2 ptl2 =>
              rw [joinComma_cons2]
              refine ⟨?_, ?_⟩
              · intro c hc
                rcases List.mem_append.mp hc with hc1 | hc1
                · exact hpart_ascii c hc1
                · rcases List.mem_cons.mp hc1 with rfl | hc2
                  · omega
                  rcases List.mem_cons.mp hc2 with rfl | hc3
                  · omega
                  · exact hat c hc3
              · simp only [sizeD, List.length_append, List.length_cons]
                omega

/-! ### Whitespace, dict building, parser unfolding -/

theorem skipWs_cons_not_ws {c : Nat} (r : List Nat) (h : isWs c = false) :
    skipWs (c :: r) = c :: r := by
  simp [skipWs, List.dropWhile_cons, h]

theorem skipWs_sp (r : List Nat) : skipWs (32 :: r) = skipWs r := by
  simp [skipWs, List.dropWhile_cons, isWs]

theorem dictInsert_of_not_mem (acc : List (List Nat × PyVal)) (k : List Nat)
    (v : PyVal) (h : ∀ p ∈ acc, p.1 ≠ k) :
    dictInsert acc k v = acc ++ [(k, v)] := by
  induction acc with
  | nil => rfl
  | cons p tl ih =>
    obtain ⟨k', v'⟩ := p
    have hk : k' ≠ k := h (k', v') (by simp)
    simp only [dictInsert, if_neg hk, List.cons_append]
    rw [ih (fun q hq => h q (List.mem_cons_of_mem _ hq))]

theorem dictFold_go (kvs : List (List Nat × PyVal)) :
    ∀ acc, (kvs.map Prod.fst).Nodup →
      (∀ p ∈ acc, p.1 ∉ kvs.map Prod.fst) →
      kvs.foldl (fun acc p => dictInsert acc p.1 p.2) acc = acc ++ kvs := by
  induction kvs with
  | nil => intro acc _ _; simp
  | cons p tl ih =>
    intro acc hnd hdisj
    obtain ⟨k, v⟩ := p
    simp only [List.map_cons, List.nodup_cons] at hnd
    simp only [List.foldl_cons]
    rw [dictInsert_of_not_mem acc k v
      (fun q hq => fun hcon => hdisj q hq (by simp [hcon]))]
    rw [ih (acc ++ [(k, v)]) hnd.2 ?_]
    · simp
    · intro q hq
      rcases List.mem_append.mp hq with hq | hq
      · exact fun hcon => hdisj q hq (by simp [hcon])
      · rcases List.mem_singleton.mp hq with rfl
        exact hnd.1

/-- `dict(pairs)` is the identity on pair lists with distinct keys. -/
theorem dictFold_eq (kvs : List (List Nat × PyVal))
    (h : (kvs.map Prod.fst).Nodup) : dictFold kvs = kvs := by
  unfold dictFold
  rw [dictFold_go kvs [] h (by simp)]
  simp

theorem parseVal_succ (f c : Nat) (rest : List Nat) :
    parseVal (f + 1) (c :: rest) =
      if c = 110 then
        match rest with
        | 117 :: 108 :: 108 :: r => some (.pynull, r)
        | _ => none
      else if c = 116 then
        match rest with
        | 114 :: 117 :: 101 :: r => some (.pybool true, r)
        | _ => none
      else if c = 102 then
        match rest with
        | 97 :: 108 :: 115 :: 101 :: r => some (.pybool false, r)
        | _ => none
      else if c = 34 then
        match parseStrBody (rest.length + 1) rest with
        | some (s, r) => some (.pystr s, r)
        | none => none
      else if c = 45 ∨ isDigit c = true then parseNum (c :: rest)
      else if c = 91 then parseListBody (parseItems f) (skipWs rest)
      else if c = 123 then parseDictBody (parsePairs f) (skipWs rest)
      else none := rfl

theorem parseVal_quote (f : Nat) (body s r : List Nat)
    (h : parseStrBody (body.length + 1) body = some (s, r)) :
    parseVal (f + 1) (34 :: body) = some (.pystr s, r) := by
  rw [show parseVal (f + 1) (34 :: body) =
    (match parseStrBody (body.length + 1) body with
     | some (s, r) => some (.pystr s, r)
     | none => none) from rfl, h]

theorem parseListBody_close (pItems : List Nat → Option (List PyVal × List Nat))
    (r2 : List Nat) :
    parseListBody pItems (93 :: r2) = some (.pylist [], r2) := rfl

theorem parseListBody_cons_ne (pItems : List Nat → Option (List PyVal × List Nat))
    (c : Nat) (r' : List Nat) (h : c ≠ 93) :
    parseListBody pItems (c :: r') =
      match pItems (c :: r') with
      | some (vs, r2) => some (.pylist vs, r2)
      | none => none := by
  unfold parseListBody
  split
  · rename_i heq
    rw [List.cons.injEq] at heq
    exact absurd heq.1 h
  · rfl

theorem parseDictBody_close
    (pPairs : List Nat → Option (List (List Nat × PyVal) × List Nat))
    (r2 : List Nat) :
    parseDictBody pPairs (125 :: r2) = some (.pydict [], r2) := rfl

theorem parseDictBody_cons_ne
    (pPairs : List Nat → Option (List (List Nat × PyVal) × List Nat))
    (c : Nat) (r' : List Nat) (h : c ≠ 125) :
    parseDictBody pPairs (c :: r') =
      match pPairs (c :: r') with
      | some (ps, r2) => some (.pydict (dictFold ps), r2)
      | none => none := by
  unfold parseDictBody
  split
  · rename_i heq
    rw [List.cons.injEq] at heq
    exact absurd heq.1 h
  · rfl

theorem parseItems_step (f : Nat) (input r1 : List Nat) (v : PyVal)
    (h : parseVal f input = some (v, r1)) :
    parseItems (f + 1) input =
      match skipWs r1 with
      | 44 :: r2 =>
        (match parseItems f (skipWs r2) with
        | some (vs, r3) => some (v :: vs, r3)
        | none => none)
      | 93 :: r2 => some ([v], r2)
      | _ => none := by
  rw [show parseItems (f + 1) input =
    (match parseVal f input with
     | some (v, r1) =>
       (match skipWs r1 with
       | 44 :: r2 =>
         (match parseItems f (skipWs r2) with
         | some (vs, r3) => some (v :: vs, r3)
         | none => none)
       | 93 :: r2 => some ([v], r2)
       | _ => none)
     | none => none) from rfl, h]

theorem parsePairs_key_step (f : Nat) (body k r1 : List Nat)
    (h : parseStrBody (body.length + 1) body = some (k, r1)) :
    parsePairs (f + 1) (34 :: body) =
      match skipWs r1 with
      | 58 :: r2 =>
        (match parseVal f (skipWs r2) with
        | some (v, r3) =>
          (match skipWs r3 with
          | 44 :: r4 =>
            (match parsePairs f (skipWs r4) with
            | some (ps, r5) => some ((k, v) :: ps, r5)
            | none => none)
          | 125 :: r4 => some ([(k, v)], r4)
          | _ => none)
        | none => none)
      | _ => none := by
  rw [show parsePairs (f + 1) (34 :: body) =
    (match parseStrBody (body.length + 1) body with
     | some (k, r1) =>
       (match skipWs r1 with
       | 58 :: r2 =>
         (match parseVal f (skipWs r2) with
         | some (v, r3) =>
           (match skipWs r3 with
           | 44 :: r4 =>
             (match parsePairs f (skipWs r4) with
             | some (ps, r5) => some ((k, v) :: ps, r5)
             | none => none)
           | 125 :: r4 => some ([(k, v)], r4)
           | _ => none)
         | none => none)
       | _ => none)
     | none => none) from rfl, h]

theorem dumpsList_join_head {tl : List PyVal} {ptl : List (List Nat)}
    (h : dumpsList tl = .ok ptl) (hne : tl ≠ []) :
    ∃ c2 j2, joinComma ptl = c2 :: j2 ∧ isWs c2 = false ∧ c2 ≠ 93 ∧ c2 ≠ 125 := by
  match tl, hne with
  | w :: tl2, _ =>
    rw [dumpsList_cons] at h
    cases hw : dumps w with
    | error e => rw [hw] at h; cases h
    | ok sw =>
      rw [hw] at h
      cases htl2 : dumpsList tl2 with
      | error e => rw [htl2] at h; cases h
      | ok ptl2 =>
        rw [htl2] at h
        cases h
        obtain ⟨_, _, c2, cs2, hc, hnws, h93, h125⟩ :=
          (dumps_facts (sizeV w)).1 w sw le_rfl hw
        cases ptl2 with
        | nil => exact ⟨c2, cs2, by rw [show joinComma [sw] = sw from rfl, hc],
            hnws, h93, h125⟩
        | cons p2 ptl3 =>
          exact ⟨c2, cs2 ++ 44 :: 32 :: joinComma (p2 :: ptl3),
            by rw [joinComma_cons2, hc, List.cons_append], hnws, h93, h125⟩

theorem dumpsKVs_join_head {tl : List (List Nat × PyVal)} {ptl : List (List Nat)}
    (h : dumpsKVs tl = .ok ptl) (hne : tl ≠ []) :
    ∃ j2, joinComma ptl = 34 :: j2 := by
  match tl, hne with
  | (k2, w) :: tl2, _ =>
    rw [dumpsKVs_cons] at h
    cases hw : dumps w with
    | error e => rw [hw] at h; cases h
    | ok sw =>
      rw [hw] at h
      cases htl2 : dumpsKVs tl2 with
      | error e => rw [htl2] at h; cases h
      | ok ptl2 =>
        rw [htl2] at h
        cases h
        have hpart : dumpStr k2 ++ 58 :: 32 :: sw =
            34 :: (escStr k2 ++ 34 :: (58 :: 32 :: sw)) := by
          simp [dumpStr]
        cases ptl2 with
        | nil =>
          exact ⟨_, by rw [show joinComma [dumpStr k2 ++ 58 :: 32 :: sw] =
            dumpStr k2 ++ 58 :: 32 :: sw from rfl, hpart]⟩
        | cons p2 ptl3 =>
          refine ⟨escStr k2 ++ 34 :: (58 :: 32 :: sw) ++
            44 :: 32 :: joinComma (p2 :: ptl3), ?_⟩
          rw [joinComma_cons2, hpart]
          simp

/-- Main round-trip lemma, by strong induction on the parser fuel: the
scanner inverts the serializer on well-formed values whenever it has at
least `sizeV v` fuel, for any continuation that cannot extend a numeric
token. -/
theorem parse_dumps : ∀ fuel : Nat,
    (∀ v s rest, wfV v = true → sizeV v ≤ fuel → dumps v = .ok s →
      numBoundaryOk rest = true →
      parseVal fuel (s ++ rest) = some (v, rest)) ∧
    (∀ xs parts rest, wfL xs = true → sizeL xs ≤ fuel → xs ≠ [] →
      dumpsList xs = .ok parts →
      parseItems fuel (joinComma parts ++ 93 :: rest) = some (xs, rest)) ∧
    (∀ kvs parts rest, wfD kvs = true → sizeD kvs ≤ fuel → kvs ≠ [] →
      dumpsKVs kvs = .ok parts →
      parsePairs fuel (joinComma parts ++ 125 :: rest) = some (kvs, rest)) := by
  intro fuel
  induction fuel using Nat.strong_induction_on with
  | _ fuel ih =>
    refine ⟨?_, ?_, ?_⟩
    · -- parseVal inverts dumps
      intro v s rest hwf hsz hs hb
      obtain ⟨f, rfl⟩ : ∃ f, fuel = f + 1 :=
        ⟨fuel - 1, by have := sizeV_pos v; omega⟩
      match v with
      | .pynull =>
        rw [show dumps .pynull = .ok [110, 117, 108, 108] from by simp [dumps]] at hs
        cases hs
        rfl
      | .pybool true =>
        rw [show dumps (.pybool true) = .ok [116, 114, 117, 101] from by simp [dumps]] at hs
        cases hs
        rfl
      | .pybool false =>
        rw [show dumps (.pybool false) = .ok [102, 97, 108, 115, 101] from by simp [dumps]] at hs
        cases hs
        rfl
      | .pyint i =>
        rw [show dumps (.pyint i) = .ok (dumpInt i) from by simp [dumps]] at hs
        cases hs
        obtain ⟨c, cs, hc, hcd⟩ := dumpInt_head i
        have hcd' : c = 45 ∨ (48 ≤ c ∧ c ≤ 57) := by
          rcases hcd with rfl | hcd
          · exact Or.inl rfl
          · simp only [isDigit, Bool.and_eq_true, decide_eq_true_eq] at hcd
            exact Or.inr hcd
        rw [hc, List.cons_append, parseVal_succ,
          if_neg (by omega), if_neg (by omega), if_neg (by omega),
          if_neg (by omega), if_pos hcd, ← List.cons_append, ← hc,
          parseNum_dumpInt i rest hb]
      | .pystr str =>
        rw [show dumps (.pystr str) = .ok (dumpStr str) from by simp [dumps]] at hs
        cases hs
        have hshape : dumpStr str ++ rest = 34 :: (escStr str ++ 34 :: rest) := by
          simp [dumpStr]
        rw [hshape]
        have hwf' : ∀ c ∈ str, isScalar c = true := by
          rw [show wfV (.pystr str) = str.all isScalar from by simp [wfV]] at hwf
          simpa [List.all_eq_true] using hwf
        refine parseVal_quote f _ str rest (parseStrBody_escStr str _ rest hwf' ?_)
        have := escStr_length_ge str
        simp only [List.length_append, List.length_cons]
        omega
      | .pylist xs =>
        rw [show dumps (.pylist xs) = (match dumpsList xs with
          | .ok parts => .ok (91 :: (joinComma parts ++ [93]))
          | .error e => .error e) from by simp [dumps]] at hs
        cases hxs : dumpsList xs with
        | error e => rw [hxs] at hs; cases hs
        | ok parts =>
          rw [hxs] at hs
          cases hs
          have hshape : (91 :: (joinComma parts ++ [93])) ++ rest =
              91 :: (joinComma parts ++ 93 :: rest) := by
            simp
          rw [hshape, parseVal_succ,
            if_neg (by norm_num), if_neg (by norm_num), if_neg (by norm_num),
            if_neg (by norm_num), if_neg (by decide), if_pos rfl]
          cases xs with
          | nil =>
            rw [show dumpsList ([] : List PyVal) = .ok [] from by simp [dumpsList]] at hxs
            cases hxs
            rw [show joinComma [] = [] from rfl, List.nil_append,
              skipWs_cons_not_ws _ (by rfl), parseListBody_close]
          | cons v tl =>
            obtain ⟨c2, j2, hj, hnws, h93, _⟩ :=
              dumpsList_join_head hxs (by simp)
            rw [hj, List.cons_append, skipWs_cons_not_ws _ hnws,
              parseListBody_cons_ne _ _ _ h93, ← List.cons_append, ← hj]
            have hwf' : wfL (v :: tl) = true := by
              rw [show wfV (.pylist (v :: tl)) = wfL (v :: tl) from by simp [wfV]] at hwf
              exact hwf
            have hsz' : sizeL (v :: tl) ≤ f := by
              rw [show sizeV (.pylist (v :: tl)) = 1 + sizeL (v :: tl) from by
                simp [sizeV]] at hsz
              omega
            rw [(ih f (by omega)).2.1 (v :: tl) parts rest hwf' hsz' (by simp) hxs]
      | .pydict kvs =>
        rw [show dumps (.pydict kvs) = (match dumpsKVs kvs with
          | .ok parts => .ok (123 :: (joinComma parts ++ [125]))
          | .error e => .error e) from by simp [dumps]] at hs
        cases hkvs : dumpsKVs kvs with
        | error e => rw [hkvs] at hs; cases hs
        | ok parts =>
          rw [hkvs] at hs
          cases hs
          have hshape : (123 :: (joinComma parts ++ [125])) ++ rest =
              123 :: (joinComma parts ++ 125 :: rest) := by
            simp
          rw [hshape, parseVal_succ,
            if_neg (by norm_num), if_neg (by norm_num), if_neg (by norm_num),
            if_neg (by norm_num), if_neg (by decide), if_neg (by norm_num),
            if_pos rfl]
          have hnodup : (kvs.map Prod.fst).Nodup ∧ wfD kvs = true := by
            rw [show wfV (.pydict kvs) =
              ((decide (kvs.map Prod.fst).Nodup) && wfD kvs) from by simp [wfV]] at hwf
            simpa using hwf
          cases kvs with
          | nil =>
            rw [show dumpsKVs ([] : List (List Nat × PyVal)) = .ok [] from by
              simp [dumpsKVs]] at hkvs
            cases hkvs
            rw [show joinComma [] = [] from rfl, List.nil_append,
              skipWs_cons_not_ws _ (by rfl), parseDictBody_close]
          | cons kv tl =>
            obtain ⟨j2, hj⟩ := dumpsKVs_join_head hkvs (by simp)
            rw [hj, List.cons_append, skipWs_cons_not_ws _ (by rfl),
              parseDictBody_cons_ne _ _ _ (by norm_num), ← List.cons_append, ← hj]
            have hsz' : sizeD (kv :: tl) ≤ f := by
              rw [show sizeV (.pydict (kv :: tl)) = 1 + sizeD (kv :: tl) from by
                simp [sizeV]] at hsz
              omega
            rw [(ih f (by omega)).2.2 (kv :: tl) parts rest hnodup.2 hsz' (by simp) hkvs]
            show some (PyVal.pydict (dictFold (kv :: tl)), rest) =
              some (PyVal.pydict (kv :: tl), rest)
            rw [dictFold_eq _ hnodup.1]
      | .pyset xs =>
        rw [show wfV (.pyset xs) = false from by simp [wfV]] at hwf
        cases hwf
    · -- parseItems inverts dumpsList on nonempty lists
      intro xs parts rest hwf hsz hne hxs
      match xs, hne with
      | v :: tl, _ =>
        rw [dumpsList_cons] at hxs
        cases hv : dumps v with
        | error e => rw [hv] at hxs; cases hxs
        | ok sv =>
          rw [hv] at hxs
          cases htl : dumpsList tl with
          | error e => rw [htl] at hxs; cases hxs
          | ok ptl =>
            rw [htl] at hxs
            cases hxs
            have hwfv : wfV v = true ∧ wfL tl = true := by
              rw [show wfL (v :: tl) = (wfV v && wfL tl) from by simp [wfL]] at hwf
              simpa using hwf
            have hszs : sizeV v + sizeL tl + 1 ≤ fuel := by
              rw [show sizeL (v :: tl) = 1 + sizeV v + sizeL tl from by
                simp [sizeL]] at hsz
              omega
            obtain ⟨f, rfl⟩ : ∃ f, fuel = f + 1 := ⟨fuel - 1, by omega⟩
            cases ptl with
            | nil =>
              have htlnil := dumpsList_nil_of_ok_nil htl
              subst htlnil
              rw [show joinComma [sv] = sv from rfl]
              have hvp := (ih f (by omega)).1 v sv (93 :: rest) hwfv.1
                (by omega) hv (by rfl)
              rw [parseItems_step f _ _ v hvp, skipWs_cons_not_ws _ (by rfl)]
            | cons p2 ptl2 =>
              have htlne : tl ≠ [] := by
                intro hcon
                subst hcon
                rw [show dumpsList ([] : List PyVal) = .ok [] from by
                  simp [dumpsList]] at htl
                cases htl
              rw [joinComma_cons2, List.append_assoc, List.cons_append,
                List.cons_append]
              have hvp := (ih f (by omega)).1 v sv
                (44 :: 32 :: (joinComma (p2 :: ptl2) ++ 93 :: rest)) hwfv.1
                (by omega) hv (by rfl)
              rw [parseItems_step f _ _ v hvp, skipWs_cons_not_ws _ (by rfl)]
              show (match parseItems f
                  (skipWs (32 :: (joinComma (p2 :: ptl2) ++ 93 :: rest))) with
                | some (vs, r3) => some (v :: vs, r3)
                | none => none) = some (v :: tl, rest)
              rw [skipWs_sp]
              obtain ⟨c2, j2, hj2, hnws2, _, _⟩ := dumpsList_join_head htl htlne
              rw [hj2, List.cons_append, skipWs_cons_not_ws _ hnws2,
                ← List.cons_append, ← hj2,
                (ih f (by omega)).2.1 tl (p2 :: ptl2) rest hwfv.2 (by omega) htlne htl]
    · -- parsePairs inverts dumpsKVs on nonempty dicts
      intro kvs parts rest hwf hsz hne hkvs
      match kvs, hne with
      | (k, v) :: tl, _ =>
        rw [dumpsKVs_cons] at hkvs
        cases hv : dumps v with
        | error e => rw [hv] at hkvs; cases hkvs
        | ok sv =>
          rw [hv] at hkvs
          cases htl : dumpsKVs tl with
          | error e => rw [htl] at hkvs; cases hkvs
          | ok ptl =>
            rw [htl] at hkvs
            cases hkvs
            have hwfv : k.all isScalar = true ∧ wfV v = true ∧ wfD tl = true := by
              rw [show wfD ((k, v) :: tl) =
                (k.all isScalar && wfV v && wfD tl) from by simp [wfD]] at hwf
              simpa [and_assoc] using hwf
            have hszs : sizeV v + sizeD tl + 1 ≤ fuel := by
              rw [show sizeD ((k, v) :: tl) = 1 + sizeV v + sizeD tl from by
                simp [sizeD]] at hsz
              omega
            obtain ⟨f, rfl⟩ : ∃ f, fuel = f + 1 := ⟨fuel - 1, by omega⟩
            obtain ⟨_, _, c1, cs1, hc1, hnws1, _, _⟩ :=
              (dumps_facts (sizeV v)).1 v sv le_rfl hv
            have hkey : ∀ X : List Nat,
                parsePairs (f + 1) ((dumpStr k ++ 58 :: 32 :: sv) ++ X) =
                  match parseVal f (sv ++ X) with
                  | some (v2, r3) =>
                    (match skipWs r3 with
                    | 44 :: r4 =>
                      (match parsePairs f (skipWs r4) with
                      | some (ps, r5) => some ((k, v2) :: ps, r5)
                      | none => none)
                    | 125 :: r4 => some ([(k, v2)], r4)
                    | _ => none)
                  | none => none := by
              intro X
              have hshape : (dumpStr k ++ 58 :: 32 :: sv) ++ X =
                  34 :: (escStr k ++ 34 :: (58 :: 32 :: (sv ++ X))) := by
                simp [dumpStr]
              rw [hshape]
              have hks : ∀ c ∈ k, isScalar c = true := by
                simpa [List.all_eq_true] using hwfv.1
              have hlen : k.length < (escStr k ++ 34 :: (58 :: 32 :: (sv ++ X))).length + 1 := by
                have := escStr_length_ge k
                simp only [List.length_append, List.length_cons]
                omega
              rw [parsePairs_key_step f _ k _ (parseStrBody_escStr k _ _ hks hlen),
                skipWs_cons_not_ws _ (by rfl)]
              show (match parseVal f (skipWs (32 :: (sv ++ X))) with
                | some (v2, r3) =>
                  (match skipWs r3 with
                  | 44 :: r4 =>
                    (match parsePairs f (skipWs r4) with
                    | some (ps, r5) => some ((k, v2) :: ps, r5)
                    | none => none)
                  | 125 :: r4 => some ([(k, v2)], r4)
                  | _ => none)
                | none => none) = _
              rw [skipWs_sp, hc1, List.cons_append, skipWs_cons_not_ws _ hnws1,
                ← List.cons_append, ← hc1]
            cases ptl with
            | nil =>
              have htlnil := dumpsKVs_nil_of_ok_nil htl
              subst htlnil
              rw [show joinComma [dumpStr k ++ 58 :: 32 :: sv] =
                dumpStr k ++ 58 :: 32 :: sv from rfl]
              rw [hkey (125 :: rest),
                (ih f (by omega)).1 v sv (125 :: rest) hwfv.2.1 (by omega) hv (by rfl)]
              show (match skipWs (125 :: rest) with
                | 44 :: r4 =>
                  (match parsePairs f (skipWs r4) with
                  | some (ps, r5) => some ((k, v) :: ps, r5)
                  | none => none)
                | 125 :: r4 => some ([(k, v)], r4)
                | _ => none) = some ([(k, v)], rest)
              rw [skipWs_cons_not_ws _ (by rfl)]
            | cons p2 ptl2 =>
              have htlne : tl ≠ [] := by
                intro hcon
                subst hcon
                rw [show dumpsKVs ([] : List (List Nat × PyVal)) = .ok [] from by
                  simp [dumpsKVs]] at htl
                cases htl
              rw [joinComma_cons2, List.append_assoc, List.cons_append,
                List.cons_append]
              rw [hkey (44 :: 32 :: (joinComma (p2 :: ptl2) ++ 125 :: rest)),
                (ih f (by omega)).1 v sv
                  (44 :: 32 :: (joinComma (p2 :: ptl2) ++ 125 :: rest)) hwfv.2.1
                  (by omega) hv (by rfl)]
              show (match skipWs (44 :: 32 :: (joinComma (p2 :: ptl2) ++ 125 :: rest)) with
                | 44 :: r4 =>
                  (match parsePairs f (skipWs r4) with
                  | some (ps, r5) => some ((k, v) :: ps, r5)
                  | none => none)
                | 125 :: r4 => some ([(k, v)], r4)
                | _ => none) = some ((k, v) :: tl, rest)
              rw [skipWs_cons_not_ws _ (by rfl)]
              show (match parsePairs f
                  (skipWs (32 :: (joinComma (p2 :: ptl2) ++ 125 :: rest))) with
                | some (ps, r5) => some ((k, v) :: ps, r5)
                | none => none) = some ((k, v) :: tl, rest)
              rw [skipWs_sp]
              obtain ⟨j2, hj2⟩ := dumpsKVs_join_head htl htlne
              rw [hj2, List.cons_append, skipWs_cons_not_ws _ (by rfl),
                ← List.cons_append, ← hj2,
                (ih f (by omega)).2.2 tl (p2 :: ptl2) rest hwfv.2.2 (by omega) htlne htl]


/-- `json.loads` inverts `json.dumps` on well-formed values. -/
theorem loads_dumps (v : PyVal) (s : List Nat) (hwf : wfV v = true)
    (hs : dumps v = .ok s) : loads s = .ok v := by
  obtain ⟨_, hsize, c, cs, hc, hnws, _, _⟩ :=
    (dumps_facts (sizeV v)).1 v s le_rfl hs
  have hskip : skipWs s = s := by
    rw [hc]
    exact skipWs_cons_not_ws _ hnws
  have hparse := (parse_dumps (s.length + 1)).1 v s [] hwf (by omega) hs rfl
  rw [List.append_nil] at hparse
  unfold loads
  rw [hskip, hparse]
  rfl


/-! ## UTF-8 (`str.encode('utf-8')` / `bytes.decode('utf-8')`) -/

def utf8EncodeChar (c : Nat) : List Nat :=
  if c < 128 then [c]
  else if c < 2048 then [192 + c / 64, 128 + c % 64]
  else if c < 65536 then [224 + c / 4096, 128 + c / 64 % 64, 128 + c % 64]
  else [240 + c / 262144, 128 + c / 4096 % 64, 128 + c / 64 % 64, 128 + c % 64]

def utf8Encode (s : List Nat) : List Nat := (s.map utf8EncodeChar).flatten

/-- Decode one scalar value from a byte stream (strict mode: CPython
rejects truncated sequences, bad continuation bytes, overlong forms,
surrogates and values above `0x10FFFF`). -/
def utf8Step : List Nat → Except PyError (Nat × List Nat)
  | [] => .error .unicodeDecodeError
  | b :: rest =>
    if b < 128 then .ok (b, rest)
    else if 194 ≤ b ∧ b ≤ 223 then
      match rest with
      | b1 :: rest1 =>
        if 128 ≤ b1 ∧ b1 ≤ 191 then .ok ((b - 192) * 64 + (b1 - 128), rest1)
        else .error .unicodeDecodeError
      | [] => .error .unicodeDecodeError
    else if 224 ≤ b ∧ b ≤ 239 then
      match rest with
      | b1 :: b2 :: rest2 =>
        if (if b = 224 then 160 ≤ b1 ∧ b1 ≤ 191
            else if b = 237 then 128 ≤ b1 ∧ b1 ≤ 159
            else 128 ≤ b1 ∧ b1 ≤ 191) ∧ 128 ≤ b2 ∧ b2 ≤ 191 then
          .ok ((b - 224) * 4096 + (b1 - 128) * 64 + (b2 - 128), rest2)
        else .error .unicodeDecodeError
      | _ => .error .unicodeDecodeError
    else if 240 ≤ b ∧ b ≤ 244 then
      match rest with
      | b1 :: b2 :: b3 :: rest3 =>
        if (if b = 240 then 144 ≤ b1 ∧ b1 ≤ 191
            else if b = 244 then 128 ≤ b1 ∧ b1 ≤ 143
            else 128 ≤ b1 ∧ b1 ≤ 191) ∧
            128 ≤ b2 ∧ b2 ≤ 191 ∧ 128 ≤ b3 ∧ b3 ≤ 191 then
          .ok ((b - 240) * 262144 + (b1 - 128) * 4096 +
            (b2 - 128) * 64 + (b3 - 128), rest3)
        else .error .unicodeDecodeError
      | _ => .error .unicodeDecodeError
    else .error .unicodeDecodeError

/-- Strict UTF-8 decoding loop; fuel-indexed (one unit per decoded
character, so `length` suffices). -/
def utf8DecodeAux : Nat → List Nat → Except PyError (List Nat)
  | _, [] => .ok []
  | 0, _ :: _ => .error .unicodeDecodeError
  | fuel + 1, b :: rest =>
    match utf8Step (b :: rest) with
    | .error e => .error e
    | .ok (c, rest2) =>
      match utf8DecodeAux fuel rest2 with
      | .ok s => .ok (c :: s)
      | .error e => .error e

def utf8Decode (bs : List Nat) : Except PyError (List Nat) :=
  utf8DecodeAux bs.length bs

theorem utf8Encode_ascii (s : List Nat) (h : ∀ c ∈ s, c < 128) :
    utf8Encode s = s := by
  induction s with
  | nil => rfl
  | cons c tl ih =>
    have hc : c < 128 := h c (by simp)
    simp only [utf8Encode, List.map_cons, List.flatten_cons] at *
    rw [show utf8EncodeChar c = [c] from by unfold utf8EncodeChar; rw [if_pos hc],
      ih (fun d hd => h d (List.mem_cons_of_mem _ hd))]
    rfl

theorem utf8Step_ascii {b : Nat} (rest : List Nat) (h : b < 128) :
    utf8Step (b :: rest) = .ok (b, rest) := by
  simp only [utf8Step]
  rw [if_pos h]

theorem utf8DecodeAux_ascii : ∀ (fuel : Nat) (bs : List Nat),
    bs.length ≤ fuel → (∀ b ∈ bs, b < 128) →
    utf8DecodeAux fuel bs = .ok bs := by
  intro fuel
  induction fuel with
  | zero =>
    intro bs hlen _
    match bs, hlen with
    | [], _ => rfl
  | succ f ih =>
    intro bs hlen hb
    match bs with
    | [] => rfl
    | b :: rest =>
      have h1 : b < 128 := hb b (by simp)
      have hrec := ih rest (by simp at hlen; omega)
        (fun d hd => hb d (List.mem_cons_of_mem _ hd))
      rw [show utf8DecodeAux (f + 1) (b :: rest) =
        (match utf8Step (b :: rest) with
        | .error e => .error e
        | .ok (c, rest2) =>
          (match utf8DecodeAux f rest2 with
          | .ok s => .ok (c :: s)
          | .error e => .error e)) from rfl,
        utf8Step_ascii rest h1]
      show (match utf8DecodeAux f rest with
        | .ok s => .ok (b :: s)
        | .error e => .error e) = Except.ok (b :: rest)
      rw [hrec]

theorem utf8Decode_ascii (bs : List Nat) (h : ∀ b ∈ bs, b < 128) :
    utf8Decode bs = .ok bs :=
  utf8DecodeAux_ascii bs.length bs le_rfl h

/-! ## zstd

`zstandard.ZstdCompressor().compress` / `ZstdDecompressor().decompress`
are an external C library; the model is any lossless codec satisfying the
library's documented contract: one-shot decompression of a one-shot
compressed buffer returns the original bytes. -/

structure Zcodec where
  compress : List Nat → List Nat
  decompress : List Nat → Except PyError (List Nat)
  round : ∀ bs, decompress (compress bs) = .ok bs

/-- A trivially lossless codec (used to instantiate witnesses). -/
def idCodec : Zcodec where
  compress := id
  decompress := .ok
  round := fun _ => rfl

/-! ## `MessageType` (src/p2pfs/core/server.py, `auto()` numbering 1..13) -/

inductive MessageType where
  | REQUEST_REGISTER
  | REQUEST_PUBLISH
  | REQUEST_FILE_LIST
  | REQUEST_FILE_LOCATION
  | REQUEST_CHUNK_REGISTER
  | REQUEST_LEAVE
  | REPLY_REGISTER
  | REPLY_FILE_LIST
  | REPLY_PUBLISH
  | REPLY_FILE_LOCATION
  | REPLY_LEAVE
  | PEER_REQUEST_CHUNK
  | PEER_REPLY_CHUNK
  deriving DecidableEq

/-- Code points of a Lean string literal (for Python string constants). -/
def str2cp (s : String) : List Nat := s.data.map Char.toNat

/-- `auto()` enum values, 1 through 13. -/
def MessageType.val : MessageType → Nat
  | .REQUEST_REGISTER => 1
  | .REQUEST_PUBLISH => 2
  | .REQUEST_FILE_LIST => 3
  | .REQUEST_FILE_LOCATION => 4
  | .REQUEST_CHUNK_REGISTER => 5
  | .REQUEST_LEAVE => 6
  | .REPLY_REGISTER => 7
  | .REPLY_FILE_LIST => 8
  | .REPLY_PUBLISH => 9
  | .REPLY_FILE_LOCATION => 10
  | .REPLY_LEAVE => 11
  | .PEER_REQUEST_CHUNK => 12
  | .PEER_REPLY_CHUNK => 13

/-- `.name` of each enum member. -/
def MessageType.nameStr : MessageType → List Nat
  | .REQUEST_REGISTER => str2cp "REQUEST_REGISTER"
  | .REQUEST_PUBLISH => str2cp "REQUEST_PUBLISH"
  | .REQUEST_FILE_LIST => str2cp "REQUEST_FILE_LIST"
  | .REQUEST_FILE_LOCATION => str2cp "REQUEST_FILE_LOCATION"
  | .REQUEST_CHUNK_REGISTER => str2cp "REQUEST_CHUNK_REGISTER"
  | .REQUEST_LEAVE => str2cp "REQUEST_LEAVE"
  | .REPLY_REGISTER => str2cp "REPLY_REGISTER"
  | .REPLY_FILE_LIST => str2cp "REPLY_FILE_LIST"
  | .REPLY_PUBLISH => str2cp "REPLY_PUBLISH"
  | .REPLY_FILE_LOCATION => str2cp "REPLY_FILE_LOCATION"
  | .REPLY_LEAVE => str2cp "REPLY_LEAVE"
  | .PEER_REQUEST_CHUNK => str2cp "PEER_REQUEST_CHUNK"
  | .PEER_REPLY_CHUNK => str2cp "PEER_REPLY_CHUNK"

def messageTypeOfNat (n : Nat) : Option MessageType :=
  if n = 1 then some .REQUEST_REGISTER
  else if n = 2 then some .REQUEST_PUBLISH
  else if n = 3 then some .REQUEST_FILE_LIST
  else if n = 4 then some .REQUEST_FILE_LOCATION
  else if n = 5 then some .REQUEST_CHUNK_REGISTER
  else if n = 6 then some .REQUEST_LEAVE
  else if n = 7 then some .REPLY_REGISTER
  else if n = 8 then some .REPLY_FILE_LIST
  else if n = 9 then some .REPLY_PUBLISH
  else if n = 10 then some .REPLY_FILE_LOCATION
  else if n = 11 then some .REPLY_LEAVE
  else if n = 12 then some .PEER_REQUEST_CHUNK
  else if n = 13 then some .PEER_REPLY_CHUNK
  else none

/-- `MessageType(x)`: enum lookup by value equality.  Python compares by
`==`, so `True == 1` also selects the first member; every other value
raises `ValueError` (`none`). -/
def messageTypeOfVal : PyVal → Option MessageType
  | .pyint i => if 1 ≤ i ∧ i ≤ 13 then messageTypeOfNat i.toNat else none
  | .pybool true => some .REQUEST_REGISTER
  | _ => none

/-! ## `MessageServer.__message_log` (async variant) -/

def keyType : List Nat := str2cp "type"
def keyData : List Nat := str2cp "data"

/-- `__message_log(message)`:
`log_message = {key: message[key] for key in message if key != 'data'}` and
then `log_message['type'] = MessageType(message['type']).name`.  A missing
`type` key raises `KeyError`; an unrecognized value raises `ValueError`.
The comprehension/indexing on a non-dict raises as well (the exact class
depends on the value; the model uses `TypeError`). -/
def messageLog (m : PyVal) : Except PyError PyVal :=
  match m with
  | .pydict kvs =>
    match lookupKey keyType kvs with
    | none => .error .keyError
    | some tv =>
      match messageTypeOfVal tv with
      | none => .error .valueError
      | some t =>
        .ok (.pydict (dictInsert (kvs.filter (fun p => decide (p.1 ≠ keyData)))
          keyType (.pystr t.nameStr)))
  | _ => .error .typeError

/-- The record the threaded variant logs on decode and on encode
(`logger.info('Message {} from {}'.format(msg, ...))` /
`logging.info('Writing {} to {}'...)`): the full message, unmodified. -/
def threadedLogRecord (m : PyVal) : PyVal := m

/-! ## Framing (`_write_message` / `_read_message`) -/

/-- Threaded `MessageServer._write_message` (src/p2pfs/core/utils.py):
`raw_msg = json.dumps(message).encode('utf-8')` then
`struct.pack('>I', len(raw_msg)) + raw_msg`. -/
def writeMessageThreaded (m : PyVal) : Except PyError (List Nat) :=
  match dumps m with
  | .error e => .error e
  | .ok raw =>
    match pack32 (utf8Encode raw).length with
    | .error e => .error e
    | .ok hdr => .ok (hdr ++ utf8Encode raw)

/-- `json.loads(raw_msg.decode('utf-8'))`. -/
def parsePayload (raw : List Nat) : Except PyError PyVal :=
  match utf8Decode raw with
  | .error e => .error e
  | .ok s => loads s

/-- One iteration of the threaded `MessageServer._read_message` body
(src/p2pfs/core/utils.py): `_recvall(client, 4)`, unpack the length,
`_recvall(client, msglen)`, `json.loads(raw_msg.decode('utf-8'))`. -/
def readMessageThreaded (chunks : Chunks) : Except PyError (PyVal × Chunks) :=
  match recvall chunks 4 with
  | .error e => .error e
  | .ok (hdr, r1) =>
    match recvall r1 (unpack32 hdr) with
    | .error e => .error e
    | .ok (raw, r2) =>
      match parsePayload raw with
      | .error e => .error e
      | .ok v => .ok (v, r2)

/-- The threaded `_read_message` loop with its `except EOFError` handler:
repeatedly decode and hand off to `_process_message` (abstract hook).  The
returned `Nat` counts `_client_closed` invocations: the handler catches
only `EOFError`, calls `_client_closed` once and returns; any other
exception propagates out of the thread uncaught (`.error e`, count 0). -/
def runReadLoop : Nat → Chunks → Except PyError Unit × Nat
  | 0, _ => (.ok (), 0)
  | fuel + 1, chunks =>
    match readMessageThreaded chunks with
    | .ok (_, rest) => runReadLoop fuel rest
    | .error .eofError => (.ok (), 1)
    | .error e => (.error e, 0)

/-- Async `MessageServer._write_message` (src/p2pfs/core/server.py):
`logger.debug(... __message_log(message))` first (its argument is evaluated
eagerly), then `json.dumps(message).encode('utf-8')`, compress, and prepend
`struct.pack('>I', len(compressed))`.  An error means no bytes were written
(`writer.write` is the last operation). -/
def writeMessageAsync (z : Zcodec) (m : PyVal) : Except PyError (List Nat) :=
  match messageLog m with
  | .error e => .error e
  | .ok _ =>
    match dumps m with
    | .error e => .error e
    | .ok raw =>
      match pack32 (z.compress (utf8Encode raw)).length with
      | .error e => .error e
      | .ok hdr => .ok (hdr ++ z.compress (utf8Encode raw))

/-- Async `MessageServer._read_message` (src/p2pfs/core/server.py):
`readexactly(4)`, unpack, `readexactly(msglen)`, decompress, UTF-8 decode,
`json.loads`, and `logger.debug(... __message_log(msg))` before returning. -/
def readMessageAsync (z : Zcodec) (delivered : List Nat) :
    Except PyError (PyVal × List Nat) :=
  match readexactly 4 delivered with
  | .error e => .error e
  | .ok (hdr, r1) =>
    match readexactly (unpack32 hdr) r1 with
    | .error e => .error e
    | .ok (raw, r2) =>
      match z.decompress raw with
      | .error e => .error e
      | .ok d =>
        match parsePayload d with
        | .error e => .error e
        | .ok v =>
          match messageLog v with
          | .error e => .error e
          | .ok _ => .ok (v, r2)

/-! ## Connection registry and shutdown (async variant) -/

/-- The `_writers` set, as a duplicate-free list of writer ids. -/
abbrev Registry := List Nat

/-- `set.add`. -/
def setAdd (s : Registry) (w : Nat) : Registry :=
  if w ∈ s then s else s ++ [w]

/-- `set.remove`: raises `KeyError` when the element is absent
(`set.discard` would be the no-op variant; the code uses `remove`). -/
def setRemove (s : Registry) (w : Nat) : Except PyError Registry :=
  if w ∈ s then .ok (s.erase w) else .error .keyError

/-- `MessageServer.__new_connection`: `self._writers.add(writer)`, run
`_process_connection` (abstract; its outcome is the parameter), then
`self._writers.remove(writer)` — which is skipped when the handler raises,
because the exception propagates.  Returns the final registry and the
outcome. -/
def newConnection (s : Registry) (w : Nat)
    (processResult : Except PyError Unit) : Registry × Except PyError Unit :=
  let s1 := setAdd s w
  match processResult with
  | .error e => (s1, .error e)
  | .ok _ =>
    match setRemove s1 w with
    | .ok s2 => (s2, .ok ())
    | .error e => (s1, .error e)

/-- The attributes an `asyncio.StreamWriter` actually has (there is no
`wait_close`; the coroutine is called `wait_closed`). -/
def streamWriterAttrs : List String :=
  ["write", "writelines", "write_eof", "can_write_eof", "close",
   "is_closing", "wait_closed", "get_extra_info", "drain", "start_tls",
   "transport"]

/-- Python attribute lookup plus call on a `StreamWriter`: `AttributeError`
for a name the class does not define. -/
def callWriterMethod (name : String) : Except PyError Unit :=
  if name ∈ streamWriterAttrs then .ok () else .error (.attributeError name)

/-- Loop body of `MessageServer.stop`:
`for writer in self._writers: writer.close(); await writer.wait_close()`. -/
def stopLoop : List Nat → Except PyError Unit
  | [] => .ok ()
  | _ :: tl =>
    match callWriterMethod "close" with
    | .error e => .error e
    | .ok _ =>
      match callWriterMethod "wait_close" with
      | .error e => .error e
      | .ok _ => stopLoop tl

/-- `MessageServer.stop` (src/p2pfs/core/server.py): iterate the writers;
the method contains no statement that mutates `_writers`, so the registry
it leaves behind is the one it started with. -/
def stopServer (ws : List Nat) : Except PyError Unit × List Nat :=
  (stopLoop ws, ws)

/-! ## Composite facts about the framing codecs -/

theorem readexactly_of_le {n : Nat} {bs : List Nat} (h : ¬ bs.length < n) :
    readexactly n bs = .ok (bs.take n, bs.drop n) := by
  unfold readexactly
  rw [if_neg h]

theorem readexactly_err {n : Nat} {bs : List Nat} (h : bs.length < n) :
    readexactly n bs = .error .incompleteRead := by
  unfold readexactly
  rw [if_pos h]

theorem chunks_nil_of_flatten_nil {cs : Chunks} (hne : ∀ c ∈ cs, c ≠ [])
    (h : cs.flatten = []) : cs = [] := by
  cases cs with
  | nil => rfl
  | cons c rest =>
    exfalso
    apply hne c (by simp)
    simp only [List.flatten_cons, List.append_eq_nil] at h
    exact h.1

theorem writeThreaded_inv {m : PyVal} {f : List Nat}
    (h : writeMessageThreaded m = .ok f) :
    ∃ raw hdr, dumps m = .ok raw ∧
      pack32 (utf8Encode raw).length = .ok hdr ∧ f = hdr ++ utf8Encode raw := by
  unfold writeMessageThreaded at h
  split at h
  · cases h
  · rename_i raw hd
    split at h
    · cases h
    · rename_i hdr hp
      cases h
      exact ⟨raw, hdr, hd, hp, rfl⟩

theorem writeAsync_inv {z : Zcodec} {m : PyVal} {f : List Nat}
    (h : writeMessageAsync z m = .ok f) :
    ∃ lg raw hdr, messageLog m = .ok lg ∧ dumps m = .ok raw ∧
      pack32 (z.compress (utf8Encode raw)).length = .ok hdr ∧
      f = hdr ++ z.compress (utf8Encode raw) := by
  unfold writeMessageAsync at h
  split at h
  · cases h
  · rename_i lg hl
    split at h
    · cases h
    · rename_i raw hd
      split at h
      · cases h
      · rename_i hdr hp
        cases h
        exact ⟨lg, raw, hdr, hl, hd, hp, rfl⟩

/-- The serialized payload decodes back to the message (UTF-8 plus JSON
layers fused). -/
theorem parsePayload_dumps {m : PyVal} {raw : List Nat} (hwf : wfV m = true)
    (hd : dumps m = .ok raw) : parsePayload (utf8Encode raw) = .ok m := by
  have hascii := ((dumps_facts (sizeV m)).1 m raw le_rfl hd).1
  unfold parsePayload
  rw [utf8Encode_ascii raw hascii, utf8Decode_ascii raw hascii]
  show loads raw = Except.ok m
  rw [loads_dumps m raw hwf hd]

/-- Decoding a threaded frame delivered in arbitrary nonempty packets:
exactly the frame is consumed and the message comes back. -/
theorem readThreaded_frame {m : PyVal} {frame : List Nat}
    (hwf : wfV m = true) (hw : writeMessageThreaded m = .ok frame)
    (chunks : Chunks) (rest : List Nat)
    (hne : ∀ c ∈ chunks, c ≠ []) (hfl : chunks.flatten = frame ++ rest) :
    ∃ rem, readMessageThreaded chunks = .ok (m, rem) ∧ rem.flatten = rest ∧
      (∀ c ∈ rem, c ≠ []) := by
  obtain ⟨raw, hdr, hd, hp, rfl⟩ := writeThreaded_inv hw
  have hlen4 := pack32_length hp
  have hup := unpack32_pack32 hp
  have hflat : chunks.flatten = hdr ++ (utf8Encode raw ++ rest) := by
    rw [hfl, List.append_assoc]
  obtain ⟨rem1, hr1, hfl1, hne1⟩ := recvall_ok chunks 4 hne
    (by rw [hflat]; simp [hlen4])
  have htake : chunks.flatten.take 4 = hdr := by
    rw [hflat, ← hlen4, List.take_left]
  have hdrop : chunks.flatten.drop 4 = utf8Encode raw ++ rest := by
    rw [hflat, ← hlen4, List.drop_left]
  obtain ⟨rem2, hr2, hfl2, hne2⟩ := recvall_ok rem1 (utf8Encode raw).length hne1
    (by rw [hfl1, hdrop]; simp)
  have htake2 : rem1.flatten.take (utf8Encode raw).length = utf8Encode raw := by
    rw [hfl1, hdrop, List.take_left]
  have hdrop2 : rem1.flatten.drop (utf8Encode raw).length = rest := by
    rw [hfl1, hdrop, List.drop_left]
  refine ⟨rem2, ?_, by rw [hfl2, hdrop2], hne2⟩
  unfold readMessageThreaded
  rw [hr1, htake]
  show (match recvall rem1 (unpack32 hdr) with
    | .error e => .error e
    | .ok (raw2, r2) =>
      (match parsePayload raw2 with
      | .error e => .error e
      | .ok v => .ok (v, r2))) = Except.ok (m, rem2)
  rw [hup, hr2, htake2]
  show (match parsePayload (utf8Encode raw) with
    | .error e => .error e
    | .ok v => .ok (v, rem2)) = Except.ok (m, rem2)
  rw [parsePayload_dumps hwf hd]

/-- Decoding an async frame: exactly the frame is consumed and the message
comes back (the write succeeding means `__message_log` accepts it, so the
read-side log call succeeds too). -/
theorem readAsync_frame {z : Zcodec} {m : PyVal} {frame : List Nat}
    (hwf : wfV m = true) (hw : writeMessageAsync z m = .ok frame)
    (rest : List Nat) :
    readMessageAsync z (frame ++ rest) = .ok (m, rest) := by
  obtain ⟨lg, raw, hdr, hl, hd, hp, rfl⟩ := writeAsync_inv hw
  have hlen4 := pack32_length hp
  have hup := unpack32_pack32 hp
  unfold readMessageAsync
  rw [List.append_assoc, readexactly_of_le (by simp [hlen4]),
    List.take_left' hlen4, List.drop_left' hlen4]
  show (match readexactly (unpack32 hdr) (z.compress (utf8Encode raw) ++ rest) with
    | .error e => .error e
    | .ok (raw2, r2) =>
      (match z.decompress raw2 with
      | .error e => .error e
      | .ok d =>
        (match parsePayload d with
        | .error e => .error e
        | .ok v =>
          (match messageLog v with
          | .error e => .error e
          | .ok _ => .ok (v, r2))))) = Except.ok (m, rest)
  rw [hup, readexactly_of_le (by simp), List.take_left, List.drop_left]
  show (match z.decompress (z.compress (utf8Encode raw)) with
    | .error e => .error e
    | .ok d =>
      (match parsePayload d with
      | .error e => .error e
      | .ok v =>
        (match messageLog v with
        | .error e => .error e
        | .ok _ => .ok (v, rest)))) = Except.ok (m, rest)
  rw [z.round]
  show (match parsePayload (utf8Encode raw) with
    | .error e => .error e
    | .ok v =>
      (match messageLog v with
      | .error e => .error e
      | .ok _ => .ok (v, rest))) = Except.ok (m, rest)
  rw [parsePayload_dumps hwf hd]
  show (match messageLog m with
    | .error e => .error e
    | .ok _ => Except.ok (m, rest)) = Except.ok (m, rest)
  rw [hl]

/-! ## Serializability (`json.dumps` totality and failure) -/

mutual
/-- Whether `json.dumps` can represent the value (no `pyset` anywhere). -/
def serV : PyVal → Bool
  | .pylist xs => serL xs
  | .pydict kvs => serD kvs
  | .pyset _ => false
  | _ => true

def serL : List PyVal → Bool
  | [] => true
  | v :: tl => serV v && serL tl

def serD : List (List Nat × PyVal) → Bool
  | [] => true
  | (_, v) :: tl => serV v && serD tl
end

/-- `json.dumps` succeeds exactly on serializable values and raises
`TypeError` otherwise. -/
theorem dumps_ser : ∀ n : Nat,
    (∀ v, sizeV v ≤ n →
      (serV v = true → ∃ s, dumps v = .ok s) ∧
      (serV v = false → dumps v = .error .typeError)) ∧
    (∀ xs, sizeL xs ≤ n →
      (serL xs = true → ∃ ps, dumpsList xs = .ok ps) ∧
      (serL xs = false → dumpsList xs = .error .typeError)) ∧
    (∀ kvs, sizeD kvs ≤ n →
      (serD kvs = true → ∃ ps, dumpsKVs kvs = .ok ps) ∧
      (serD kvs = false → dumpsKVs kvs = .error .typeError)) := by
  intro n
  induction n using Nat.strong_induction_on with
  | _ n ih =>
    refine ⟨?_, ?_, ?_⟩
    · intro v hsz
      match v with
      | .pynull =>
        exact ⟨fun _ => ⟨[110, 117, 108, 108], by simp [dumps]⟩, by simp [serV]⟩
      | .pybool true =>
        exact ⟨fun _ => ⟨[116, 114, 117, 101], by simp [dumps]⟩, by simp [serV]⟩
      | .pybool false =>
        exact ⟨fun _ => ⟨[102, 97, 108, 115, 101], by simp [dumps]⟩, by simp [serV]⟩
      | .pyint i => exact ⟨fun _ => ⟨dumpInt i, by simp [dumps]⟩, by simp [serV]⟩
      | .pystr s => exact ⟨fun _ => ⟨dumpStr s, by simp [dumps]⟩, by simp [serV]⟩
      | .pyset xs => exact ⟨by simp [serV], fun _ => by simp [dumps]⟩
      | .pylist xs =>
        have hn : 1 ≤ n := le_trans (sizeV_pos _) hsz
        have hszl : sizeL xs ≤ n - 1 := by
          rw [show sizeV (.pylist xs) = 1 + sizeL xs from by simp [sizeV]] at hsz
          omega
        obtain ⟨hok, herr⟩ := (ih (n - 1) (by omega)).2.1 xs hszl
        constructor
        · intro hser
          rw [show serV (.pylist xs) = serL xs from by simp [serV]] at hser
          obtain ⟨ps, hps⟩ := hok hser
          exact ⟨_, by rw [show dumps (.pylist xs) = (match dumpsList xs with
            | .ok parts => .ok (91 :: (joinComma parts ++ [93]))
            | .error e => .error e) from by simp [dumps], hps]⟩
        · intro hser
          rw [show serV (.pylist xs) = serL xs from by simp [serV]] at hser
          rw [show dumps (.pylist xs) = (match dumpsList xs with
            | .ok parts => .ok (91 :: (joinComma parts ++ [93]))
            | .error e => .error e) from by simp [dumps], herr hser]
      | .pydict kvs =>
        have hn : 1 ≤ n := le_trans (sizeV_pos _) hsz
        have hszl : sizeD kvs ≤ n - 1 := by
          rw [show sizeV (.pydict kvs) = 1 + sizeD kvs from by simp [sizeV]] at hsz
          omega
        obtain ⟨hok, herr⟩ := (ih (n - 1) (by omega)).2.2 kvs hszl
        constructor
        · intro hser
          rw [show serV (.pydict kvs) = serD kvs from by simp [serV]] at hser
          obtain ⟨ps, hps⟩ := hok hser
          exact ⟨_, by rw [show dumps (.pydict kvs) = (match dumpsKVs kvs with
            | .ok parts => .ok (123 :: (joinComma parts ++ [125]))
            | .error e => .error e) from by simp [dumps], hps]⟩
        · intro hser
          rw [show serV (.pydict kvs) = serD kvs from by simp [serV]] at hser
          rw [show dumps (.pydict kvs) = (match dumpsKVs kvs with
            | .ok parts => .ok (123 :: (joinComma parts ++ [125]))
            | .error e => .error e) from by simp [dumps], herr hser]
    · intro xs hsz
      match xs with
      | [] => exact ⟨fun _ => ⟨[], by simp [dumpsList]⟩, by simp [serL]⟩
      | v :: tl =>
        have hszv : sizeV v ≤ n - 1 := by
          rw [show sizeL (v :: tl) = 1 + sizeV v + sizeL tl from by
            simp [sizeL]] at hsz
          omega
        have hszt : sizeL tl ≤ n - 1 := by
          rw [show sizeL (v :: tl) = 1 + sizeV v + sizeL tl from by
            simp [sizeL]] at hsz
          omega
        have hn : 1 ≤ n := by
          rw [show sizeL (v :: tl) = 1 + sizeV v + sizeL tl from by
            simp [sizeL]] at hsz
          omega
        obtain ⟨hvok, hverr⟩ := (ih (n - 1) (by omega)).1 v hszv
        obtain ⟨htok, hterr⟩ := (ih (n - 1) (by omega)).2.1 tl hszt
        have hser : serL (v :: tl) = (serV v && serL tl) := by simp [serL]
        constructor
        · intro h
          rw [hser, Bool.and_eq_true] at h
          obtain ⟨sv, hsv⟩ := hvok h.1
          obtain ⟨ps, hps⟩ := htok h.2
          exact ⟨_, by rw [dumpsList_cons, hsv, hps]⟩
        · intro h
          rw [hser, Bool.and_eq_false_iff] at h
          rcases h with h | h
          · rw [dumpsList_cons, hverr h]
          · cases hv : serV v with
            | false => rw [dumpsList_cons, hverr hv]
            | true =>
              obtain ⟨sv, hsv⟩ := hvok hv
              rw [dumpsList_cons, hsv, hterr h]
    · intro kvs hsz
      match kvs with
      | [] => exact ⟨fun _ => ⟨[], by simp [dumpsKVs]⟩, by simp [serD]⟩
      | (k, v) :: tl =>
        have hszv : sizeV v ≤ n - 1 := by
          rw [show sizeD ((k, v) :: tl) = 1 + sizeV v + sizeD tl from by
            simp [sizeD]] at hsz
          omega
        have hszt : sizeD tl ≤ n - 1 := by
          rw [show sizeD ((k, v) :: tl) = 1 + sizeV v + sizeD tl from by
            simp [sizeD]] at hsz
          omega
        have hn : 1 ≤ n := by
          rw [show sizeD ((k, v) :: tl) = 1 + sizeV v + sizeD tl from by
            simp [sizeD]] at hsz
          omega
        obtain ⟨hvok, hverr⟩ := (ih (n - 1) (by omega)).1 v hszv
        obtain ⟨htok, hterr⟩ := (ih (n - 1) (by omega)).2.2 tl hszt
        have hser : serD ((k, v) :: tl) = (serV v && serD tl) := by simp [serD]
        constructor
        · intro h
          rw [hser, Bool.and_eq_true] at h
          obtain ⟨sv, hsv⟩ := hvok h.1
          obtain ⟨ps, hps⟩ := htok h.2
          exact ⟨_, by rw [dumpsKVs_cons, hsv, hps]⟩
        · intro h
          rw [hser, Bool.and_eq_false_iff] at h
          rcases h with h | h
          · rw [dumpsKVs_cons, hverr h]
          · cases hv : serV v with
            | false => rw [dumpsKVs_cons, hverr hv]
            | true =>
              obtain ⟨sv, hsv⟩ := hvok hv
              rw [dumpsKVs_cons, hsv, hterr h]

/-! ## Lookup facts about the log projection -/

theorem lookupKey_filter_data (kvs : List (List Nat × PyVal)) :
    lookupKey keyData (kvs.filter (fun p => decide (p.1 ≠ keyData))) = none := by
  induction kvs with
  | nil => rfl
  | cons p tl ih =>
    obtain ⟨k, v⟩ := p
    by_cases hk : k = keyData
    · subst hk
      rw [List.filter_cons, if_neg (by simp)]
      exact ih
    · simp only [List.filter_cons]
      rw [if_pos (by simpa using hk)]
      simp only [lookupKey]
      rw [if_neg hk]
      exact ih

theorem lookupKey_filter_ne (k : List Nat) (kvs : List (List Nat × PyVal))
    (hk : k ≠ keyData) :
    lookupKey k (kvs.filter (fun p => decide (p.1 ≠ keyData))) =
      lookupKey k kvs := by
  induction kvs with
  | nil => rfl
  | cons p tl ih =>
    obtain ⟨k', v⟩ := p
    by_cases hk' : k' = keyData
    · subst hk'
      simp only [List.filter_cons]
      rw [if_neg (by simp)]
      rw [show lookupKey k ((keyData, v) :: tl) =
        (if keyData = k then some v else lookupKey k tl) from rfl,
        if_neg (fun hcon => hk hcon.symm)]
      exact ih
    · simp only [List.filter_cons]
      rw [if_pos (by simpa using hk')]
      show (if k' = k then some v else _) = (if k' = k then some v else _)
      by_cases hkk : k' = k
      · rw [if_pos hkk, if_pos hkk]
      · rw [if_neg hkk, if_neg hkk]
        exact ih

theorem lookupKey_dictInsert_self (kvs : List (List Nat × PyVal))
    (k : List Nat) (v : PyVal) :
    lookupKey k (dictInsert kvs k v) = some v := by
  induction kvs with
  | nil => simp [dictInsert, lookupKey]
  | cons p tl ih =>
    obtain ⟨k', v'⟩ := p
    by_cases hk : k' = k
    · subst hk
      simp [dictInsert, lookupKey]
    · simp only [dictInsert]
      rw [if_neg hk]
      show (if k' = k then some v' else lookupKey k (dictInsert tl k v)) = some v
      rw [if_neg hk]
      exact ih

theorem lookupKey_dictInsert_ne (kvs : List (List Nat × PyVal))
    (k k2 : List Nat) (v : PyVal) (h : k2 ≠ k) :
    lookupKey k2 (dictInsert kvs k v) = lookupKey k2 kvs := by
  induction kvs with
  | nil =>
    simp only [dictInsert, lookupKey]
    rw [if_neg (fun hcon => h hcon.symm)]
  | cons p tl ih =>
    obtain ⟨k', v'⟩ := p
    by_cases hk : k' = k
    · subst hk
      simp only [dictInsert, if_pos rfl]
      show (if k' = k2 then some v else lookupKey k2 tl) =
        (if k' = k2 then some v' else lookupKey k2 tl)
      rw [if_neg (fun hcon => h hcon.symm), if_neg (fun hcon => h hcon.symm)]
    · simp only [dictInsert]
      rw [if_neg hk]
      show (if k' = k2 then some v' else lookupKey k2 (dictInsert tl k v)) =
        (if k' = k2 then some v' else lookupKey k2 tl)
      by_cases hkk : k' = k2
      · rw [if_pos hkk, if_pos hkk]
      · rw [if_neg hkk, if_neg hkk, ih]

/-! ## Claim theorems -/

/-- C1: for every stream that ends (EOF) before the 4-byte length header is
complete, or whose declared payload length exceeds the bytes actually
delivered before the stream closes, the decode operation fails with a
ConnectionClosed-style error — `EOFError` from the threaded `_recvall`
loop, `IncompleteReadError` from the async `readexactly` — rather than
hanging, crashing the process, or returning a partial message (the embedded
readers are total functions whose only outcomes are a complete message or
this error). -/
theorem C1_truncation_fails_with_connection_closed :
    ∀ (z : Zcodec) (chunks : Chunks) (delivered : List Nat),
      ((∀ c ∈ chunks, c ≠ []) → chunks.flatten.length < 4 →
        readMessageThreaded chunks = .error .eofError) ∧
      ((∀ c ∈ chunks, c ≠ []) → 4 ≤ chunks.flatten.length →
        chunks.flatten.length < 4 + unpack32 (chunks.flatten.take 4) →
        readMessageThreaded chunks = .error .eofError) ∧
      (delivered.length < 4 →
        readMessageAsync z delivered = .error .incompleteRead) ∧
      (4 ≤ delivered.length →
        delivered.length < 4 + unpack32 (delivered.take 4) →
        readMessageAsync z delivered = .error .incompleteRead) := by
  intro z chunks delivered
  refine ⟨?_, ?_, ?_, ?_⟩
  · intro hne hlen
    unfold readMessageThreaded
    rw [recvall_eof chunks 4 hlen]
  · intro hne h4 hlen
    obtain ⟨rem1, hr1, hfl1, hne1⟩ := recvall_ok chunks 4 hne h4
    unfold readMessageThreaded
    rw [hr1]
    show (match recvall rem1 (unpack32 (chunks.flatten.take 4)) with
      | .error e => .error e
      | .ok (raw, r2) =>
        (match parsePayload raw with
        | .error e => .error e
        | .ok v => .ok (v, r2))) =
      (Except.error PyError.eofError : Except PyError (PyVal × Chunks))
    rw [recvall_eof rem1 _ (by rw [hfl1, List.length_drop]; omega)]
  · intro hlen
    unfold readMessageAsync
    rw [readexactly_err hlen]
  · intro h4 hlen
    unfold readMessageAsync
    rw [readexactly_of_le (by omega)]
    show (match readexactly (unpack32 (delivered.take 4)) (delivered.drop 4) with
      | .error e => .error e
      | .ok (raw, r2) =>
        (match z.decompress raw with
        | .error e => .error e
        | .ok d =>
          (match parsePayload d with
          | .error e => .error e
          | .ok v =>
            (match messageLog v with
            | .error e => .error e
            | .ok _ => .ok (v, r2))))) =
      (Except.error PyError.incompleteRead : Except PyError (PyVal × List Nat))
    rw [readexactly_err (by rw [List.length_drop]; omega)]

/-- Witness for C1 on concrete truncated streams: a peer that closed after
one header byte, and one that promised 5 payload bytes but delivered 2. -/
theorem C1_witness :
    readMessageThreaded [[0]] = .error .eofError ∧
    readMessageThreaded [[0], [0, 0, 5, 1], [2]] = .error .eofError ∧
    readMessageAsync idCodec [0, 0] = .error .incompleteRead ∧
    readMessageAsync idCodec [0, 0, 0, 5, 1, 2] = .error .incompleteRead :=
  ⟨(C1_truncation_fails_with_connection_closed idCodec [[0]] []).1
      (by decide) (by decide),
    (C1_truncation_fails_with_connection_closed idCodec [[0], [0, 0, 5, 1], [2]] []).2.1
      (by decide) (by decide) (by decide),
    (C1_truncation_fails_with_connection_closed idCodec [] [0, 0]).2.2.1 (by decide),
    (C1_truncation_fails_with_connection_closed idCodec [] [0, 0, 0, 5, 1, 2]).2.2.2
      (by decide) (by decide)⟩

/-- C5: every frame produced by `_write_message` (either variant) is
exactly a 4-byte big-endian unsigned header whose value equals the exact
byte length of the (possibly compressed) payload, immediately followed by
that payload and nothing else; reading the header and then exactly that
many bytes recovers the full payload and exhausts the frame. -/
theorem C5_frame_is_header_plus_payload :
    ∀ (z : Zcodec) (m : PyVal) (fa ft : List Nat),
      (writeMessageThreaded m = .ok ft →
        4 ≤ ft.length ∧ unpack32 (ft.take 4) = (ft.drop 4).length ∧
        readexactly 4 ft = .ok (ft.take 4, ft.drop 4) ∧
        readexactly (unpack32 (ft.take 4)) (ft.drop 4) = .ok (ft.drop 4, [])) ∧
      (writeMessageAsync z m = .ok fa →
        4 ≤ fa.length ∧ unpack32 (fa.take 4) = (fa.drop 4).length ∧
        readexactly 4 fa = .ok (fa.take 4, fa.drop 4) ∧
        readexactly (unpack32 (fa.take 4)) (fa.drop 4) = .ok (fa.drop 4, [])) := by
  intro z m fa ft
  constructor
  · intro hw
    obtain ⟨raw, hdr, hd, hp, rfl⟩ := writeThreaded_inv hw
    have hlen4 := pack32_length hp
    have htk : (hdr ++ utf8Encode raw).take 4 = hdr := List.take_left' hlen4
    have hdp : (hdr ++ utf8Encode raw).drop 4 = utf8Encode raw :=
      List.drop_left' hlen4
    rw [htk, hdp, unpack32_pack32 hp]
    refine ⟨by simp [hlen4], rfl, ?_, ?_⟩
    · rw [readexactly_of_le (by simp [hlen4]), htk, hdp]
    · rw [readexactly_of_le (by simp), List.take_length, List.drop_length]
  · intro hw
    obtain ⟨lg, raw, hdr, hl, hd, hp, rfl⟩ := writeAsync_inv hw
    have hlen4 := pack32_length hp
    have htk : (hdr ++ z.compress (utf8Encode raw)).take 4 = hdr :=
      List.take_left' hlen4
    have hdp : (hdr ++ z.compress (utf8Encode raw)).drop 4 =
        z.compress (utf8Encode raw) := List.drop_left' hlen4
    rw [htk, hdp, unpack32_pack32 hp]
    refine ⟨by simp [hlen4], rfl, ?_, ?_⟩
    · rw [readexactly_of_le (by simp [hlen4]), htk, hdp]
    · rw [readexactly_of_le (by simp), List.take_length, List.drop_length]

/-- The example message `{"type": 3}` (`REQUEST_FILE_LIST`) and its
threaded frame (also its `idCodec` async frame). -/
def mEx : PyVal := .pydict [(keyType, .pyint 3)]

def frameEx : List Nat :=
  [0, 0, 0, 11, 123, 34, 116, 121, 112, 101, 34, 58, 32, 51, 125]

theorem dumps_mEx : dumps mEx = .ok (str2cp "\x7b\"type\": 3\x7d") := by
  simp [mEx, dumps, dumpsKVs, dumpInt, dumpNat, natDigitsLE, dumpStr, escStr,
    escChar, joinComma, keyType, str2cp]

theorem writeThreaded_mEx : writeMessageThreaded mEx = .ok frameEx := by
  unfold writeMessageThreaded
  rw [dumps_mEx]
  rfl

theorem writeAsync_mEx : writeMessageAsync idCodec mEx = .ok frameEx := by
  unfold writeMessageAsync
  rw [show messageLog mEx = .ok (.pydict [(keyType,
    .pystr (str2cp "REQUEST_FILE_LIST"))]) from rfl, dumps_mEx]
  rfl

/-- Witness for C5 at the concrete message `{"type": 3}`. -/
theorem C5_witness :
    unpack32 (frameEx.take 4) = (frameEx.drop 4).length ∧
    readexactly (unpack32 (frameEx.take 4)) (frameEx.drop 4) =
      .ok (frameEx.drop 4, []) :=
  ⟨((C5_frame_is_header_plus_payload idCodec mEx frameEx frameEx).1
      writeThreaded_mEx).2.1,
    ((C5_frame_is_header_plus_payload idCodec mEx frameEx frameEx).2
      writeAsync_mEx).2.2.2⟩

/-- C2: for every valid message — well-formed per `wfV` (JSON-serializable,
scalar strings, duplicate-free dict keys) and accepted by the encoder —
decoding the frame produced by encoding yields the message back,
field for field, in the compressed (async, any lossless zstd behaviour
`z : Zcodec`) and uncompressed (threaded) variants. -/
theorem C2_decode_encode_roundtrip :
    ∀ (z : Zcodec) (m : PyVal) (fa ft : List Nat),
      wfV m = true →
      writeMessageAsync z m = .ok fa →
      writeMessageThreaded m = .ok ft →
      readMessageAsync z fa = .ok (m, []) ∧
      readMessageThreaded [ft] = .ok (m, []) := by
  intro z m fa ft hwf ha ht
  constructor
  · have := readAsync_frame hwf ha []
    rwa [List.append_nil] at this
  · obtain ⟨raw, hdr, hd, hp, rfl⟩ := writeThreaded_inv ht
    have hlen4 := pack32_length hp
    obtain ⟨rem, hread, hflrem, hnerem⟩ := readThreaded_frame hwf ht
      [hdr ++ utf8Encode raw] []
      (by
        intro c hc
        rcases List.mem_singleton.mp hc with rfl
        intro hcon
        have := congrArg List.length hcon
        simp [hlen4] at this)
      (by simp)
    rw [hread, chunks_nil_of_flatten_nil hnerem hflrem]

/-- Witness for C2: the concrete message `{"type": 3}` round trips through
both variants (async instantiated with the identity codec). -/
theorem C2_witness :
    wfV mEx = true ∧
    readMessageAsync idCodec frameEx = .ok (mEx, []) ∧
    readMessageThreaded [frameEx] = .ok (mEx, []) := by
  have hwf : wfV mEx = true := by
    simp [mEx, wfV, wfD, keyType, str2cp, isScalar]
  exact ⟨hwf,
    (C2_decode_encode_roundtrip idCodec mEx frameEx frameEx hwf
      writeAsync_mEx writeThreaded_mEx).1,
    (C2_decode_encode_roundtrip idCodec mEx frameEx frameEx hwf
      writeAsync_mEx writeThreaded_mEx).2⟩

/-- C3: the payload-read loop (`_recvall`) accumulates exactly `n` bytes —
the first `n` bytes of the delivered stream — under every partition of the
stream into nonempty packets, and decoding a frame delivered in arbitrary
packets yields the same message as decoding it delivered whole. -/
theorem C3_chunking_invariance :
    ∀ (chunks : Chunks) (m : PyVal) (frame rest : List Nat) (n : Nat),
      ((∀ c ∈ chunks, c ≠ []) → n ≤ chunks.flatten.length →
        ∃ rem, recvall chunks n = .ok (chunks.flatten.take n, rem) ∧
          rem.flatten = chunks.flatten.drop n) ∧
      (wfV m = true → writeMessageThreaded m = .ok frame →
        (∀ c ∈ chunks, c ≠ []) → chunks.flatten = frame ++ rest →
        ∃ rem, readMessageThreaded chunks = .ok (m, rem) ∧ rem.flatten = rest ∧
          readMessageThreaded [frame] = .ok (m, [])) := by
  intro chunks m frame rest n
  constructor
  · intro hne hlen
    obtain ⟨rem, h1, h2, _⟩ := recvall_ok chunks n hne hlen
    exact ⟨rem, h1, h2⟩
  · intro hwf hw hne hfl
    obtain ⟨rem, hread, hflrem, _⟩ := readThreaded_frame hwf hw chunks rest hne hfl
    refine ⟨rem, hread, hflrem, ?_⟩
    obtain ⟨raw, hdr, hd, hp, hfr⟩ := writeThreaded_inv hw
    have hlen4 := pack32_length hp
    obtain ⟨rem2, hread2, hflrem2, hnerem2⟩ := readThreaded_frame hwf hw
      [frame] []
      (by
        intro c hc
        rcases List.mem_singleton.mp hc with rfl
        intro hcon
        rw [hfr] at hcon
        have := congrArg List.length hcon
        simp [hlen4] at this)
      (by simp)
    rw [hread2, chunks_nil_of_flatten_nil hnerem2 hflrem2]

/-- Witness for C3: the frame of `{"type": 3}` delivered one byte per
`recv` decodes to the same message as the whole frame. -/
theorem C3_witness :
    ∃ rem, readMessageThreaded (frameEx.map (fun b => [b])) = .ok (mEx, rem) ∧
      rem.flatten = [] ∧ readMessageThreaded [frameEx] = .ok (mEx, []) := by
  have hwf : wfV mEx = true := by
    simp [mEx, wfV, wfD, keyType, str2cp, isScalar]
  exact (C3_chunking_invariance (frameEx.map (fun b => [b])) mEx frameEx [] 4).2
    hwf writeThreaded_mEx (by decide) (by decide)

/-- Decoding a stream that delivers exactly one frame: the reader's result
is the payload-parse result. -/
theorem readThreaded_exact {chunks : Chunks} {hdr raw : List Nat}
    (hne : ∀ c ∈ chunks, c ≠ []) (hp : pack32 raw.length = .ok hdr)
    (hfl : chunks.flatten = hdr ++ raw) :
    readMessageThreaded chunks =
      match parsePayload raw with
      | .error e => .error e
      | .ok v => .ok (v, ([] : Chunks)) := by
  have hlen4 := pack32_length hp
  have hup := unpack32_pack32 hp
  obtain ⟨rem1, hr1, hfl1, hne1⟩ := recvall_ok chunks 4 hne
    (by rw [hfl]; simp [hlen4])
  have htake : chunks.flatten.take 4 = hdr := by
    rw [hfl, ← hlen4, List.take_left]
  have hdrop : chunks.flatten.drop 4 = raw := by
    rw [hfl, ← hlen4, List.drop_left]
  obtain ⟨rem2, hr2, hfl2, hne2⟩ := recvall_ok rem1 raw.length hne1
    (by rw [hfl1, hdrop])
  have htake2 : rem1.flatten.take raw.length = raw := by
    rw [hfl1, hdrop, List.take_length]
  have hdrop2 : rem1.flatten.drop raw.length = [] := by
    rw [hfl1, hdrop, List.drop_length]
  have hrem2 : rem2 = [] :=
    chunks_nil_of_flatten_nil hne2 (by rw [hfl2, hdrop2])
  unfold readMessageThreaded
  rw [hr1, htake]
  show (match recvall rem1 (unpack32 hdr) with
    | Except.error e => Except.error e
    | Except.ok (raw2, r2) =>
      (match parsePayload raw2 with
      | Except.error e => Except.error e
      | Except.ok v => Except.ok (v, r2))) =
    (match parsePayload raw with
    | Except.error e => Except.error e
    | Except.ok v => Except.ok (v, ([] : Chunks)))
  rw [hup, hr2, htake2, hrem2]

theorem runReadLoop_succ (fuel : Nat) (chunks : Chunks) :
    runReadLoop (fuel + 1) chunks =
      match readMessageThreaded chunks with
      | .ok (_, rest) => runReadLoop fuel rest
      | .error .eofError => (.ok (), 1)
      | .error e => (.error e, 0) := rfl

/-- C4 counterexample at a concrete input: the threaded variant receives a
well-framed 1-byte payload `b"x"`, which is not valid JSON.  `json.loads`
raises `JSONDecodeError`; the read loop's `except EOFError` clause does not
catch it, so the exception escapes and `_client_closed` is invoked 0 times —
not exactly once as the claim states, and no `MalformedMessageError` exists
anywhere in the code. -/
theorem C4_counterexample :
    runReadLoop 2 [[0, 0, 0, 1, 120]] = (.error .jsonDecodeError, 0) := rfl

/-- C4 as amended: a frame whose payload is not valid JSON makes the
threaded decode raise an uncaught `JSONDecodeError` (there is no
`MalformedMessageError` in the code), and `_client_closed` is not invoked
(count 0); `_client_closed` is invoked exactly once only when `recv`
signals EOF (e.g. the stream is exhausted); and a payload that parses as
JSON is accepted by the decode with no check that it is a mapping with a
`type` field. -/
theorem C4_amended :
    ∀ (chunks : Chunks) (raw hdr s : List Nat) (fuel : Nat) (m : PyVal),
      ((∀ c ∈ chunks, c ≠ []) → pack32 raw.length = .ok hdr →
        chunks.flatten = hdr ++ raw → utf8Decode raw = .ok s →
        loads s = .error .jsonDecodeError →
        runReadLoop (fuel + 1) chunks = (.error .jsonDecodeError, 0)) ∧
      (chunks = [] → runReadLoop (fuel + 1) chunks = (.ok (), 1)) ∧
      ((∀ c ∈ chunks, c ≠ []) → pack32 raw.length = .ok hdr →
        chunks.flatten = hdr ++ raw → utf8Decode raw = .ok s →
        loads s = .ok m →
        readMessageThreaded chunks = .ok (m, [])) := by
  intro chunks raw hdr s fuel m
  have hpp : ∀ r, utf8Decode raw = .ok s → loads s = r →
      parsePayload raw = r := by
    intro r hu hl
    unfold parsePayload
    rw [hu]
    exact hl
  refine ⟨?_, ?_, ?_⟩
  · intro hne hp hfl hu hl
    rw [runReadLoop_succ, readThreaded_exact hne hp hfl, hpp _ hu hl]
  · intro hnil
    subst hnil
    rw [runReadLoop_succ]
    rw [show readMessageThreaded [] = .error .eofError from by
      unfold readMessageThreaded
      rw [recvall_nil (by omega)]]
  · intro hne hp hfl hu hl
    rw [readThreaded_exact hne hp hfl, hpp _ hu hl]

/-- Witness for C4's amended statement: uncaught `JSONDecodeError` with no
`_client_closed` call on payload `b"x"`; exactly one `_client_closed` call
on a cleanly closed stream; and the non-mapping payload `[1]` (a JSON array
with no `type` field) is decoded and accepted. -/
theorem C4_witness :
    runReadLoop 1 [[0, 0, 0, 1], [120]] = (.error .jsonDecodeError, 0) ∧
    runReadLoop 1 [] = (.ok (), 1) ∧
    readMessageThreaded [[0, 0, 0, 3, 91, 49, 93]] = .ok (.pylist [.pyint 1], []) :=
  ⟨(C4_amended [[0, 0, 0, 1], [120]] [120] [0, 0, 0, 1] [120] 0 .pynull).1
      (by decide) rfl (by decide) rfl rfl,
    (C4_amended [] [] [] [] 0 .pynull).2.1 rfl,
    (C4_amended [[0, 0, 0, 3, 91, 49, 93]] [91, 49, 93] [0, 0, 0, 3] [91, 49, 93]
        0 (.pylist [.pyint 1])).2.2
      (by decide) rfl (by decide) rfl rfl⟩

/-- C6 (the code contradicts the claim): `stop` iterates `_writers` and
calls `writer.wait_close()`, but `asyncio.StreamWriter` has no attribute
`wait_close` (the coroutine is named `wait_closed`), so with any registered
connection `stop()` raises `AttributeError` on the first iteration; and no
statement of `stop` mutates `_writers`, so the registry it leaves behind is
exactly the one it started with — never emptied. -/
theorem C6_stop_raises_and_keeps_registry :
    ∀ (w : Nat) (tl : List Nat),
      stopServer (w :: tl) = (.error (.attributeError "wait_close"), w :: tl) ∧
      "wait_close" ∉ streamWriterAttrs ∧ "wait_closed" ∈ streamWriterAttrs := by
  intro w tl
  refine ⟨?_, by decide, by decide⟩
  unfold stopServer stopLoop
  rw [show callWriterMethod "close" = .ok () from rfl,
    show callWriterMethod "wait_close" = .error (.attributeError "wait_close")
      from rfl]

/-- C7 counterexample: removing a connection that is already absent is not
a no-op — `set.remove` raises `KeyError` (the claim requires idempotent
removal). -/
theorem C7_counterexample : setRemove [] 0 = .error .keyError := rfl

/-- C7 as amended: unregistering uses `set.remove`, which raises `KeyError`
when the connection is absent (not idempotent; `set.discard` would be);
every accepted connection is added to the registry, and it is removed only
when `_process_connection` returns normally — when the handler raises, the
removal is skipped and the connection stays registered. -/
theorem C7_amended :
    ∀ (s : Registry) (w : Nat) (e : PyError),
      (w ∉ s → setRemove s w = .error .keyError) ∧
      (w ∈ s → setRemove s w = .ok (s.erase w)) ∧
      newConnection s w (.error e) = (setAdd s w, .error e) ∧
      (w ∉ s → newConnection s w (.ok ()) = (s, .ok ())) := by
  intro s w e
  refine ⟨?_, ?_, ?_, ?_⟩
  · intro h
    unfold setRemove
    rw [if_neg h]
  · intro h
    unfold setRemove
    rw [if_pos h]
  · rfl
  · intro h
    unfold newConnection setAdd
    rw [if_neg h]
    show (match setRemove (s ++ [w]) w with
      | .ok s2 => (s2, Except.ok ())
      | .error e => (s ++ [w], .error e)) = (s, Except.ok ())
    unfold setRemove
    rw [if_pos (by simp), List.erase_append_right _ h]
    simp [List.erase_cons]

/-- Witness for C7's amended statement at concrete registries. -/
theorem C7_witness :
    setRemove [5] 7 = .error .keyError ∧
    setRemove [5, 7] 7 = .ok [5] ∧
    newConnection [5] 7 (.error .jsonDecodeError) = ([5, 7], .error .jsonDecodeError) ∧
    newConnection [5] 7 (.ok ()) = ([5], .ok ()) :=
  ⟨(C7_amended [5] 7 .eofError).1 (by decide),
    (C7_amended [5, 7] 7 .eofError).2.1 (by decide),
    (C7_amended [5] 7 .jsonDecodeError).2.2.1,
    (C7_amended [5] 7 .eofError).2.2.2 (by decide)⟩

/-- C8: a message containing a field `json.dumps` cannot represent makes
the encode fail with the code's serialization error (`TypeError`, the
concrete form of the spec's `SerializationError`): the error is returned to
the caller of `_write_message` — neither variant's `_write_message`
references the connection registry or closes the connection, so the model
leaves both untouched by construction.  Conversely, encoding succeeds for
every serializable message (total up to the 4-byte header's `2^32` domain
of `struct.pack`, and — async only — up to `__message_log` accepting the
message, see C10). -/
theorem C8_serialization_error_semantics :
    ∀ (z : Zcodec) (m lg : PyVal),
      (serV m = false →
        dumps m = .error .typeError ∧
        writeMessageThreaded m = .error .typeError ∧
        (messageLog m = .ok lg → writeMessageAsync z m = .error .typeError)) ∧
      (serV m = true →
        ∃ s, dumps m = .ok s ∧
          ((utf8Encode s).length < 2 ^ 32 →
            ∃ f, writeMessageThreaded m = .ok f) ∧
          (messageLog m = .ok lg →
            (z.compress (utf8Encode s)).length < 2 ^ 32 →
            ∃ f, writeMessageAsync z m = .ok f)) := by
  intro z m lg
  constructor
  · intro hser
    have hd := ((dumps_ser (sizeV m)).1 m le_rfl).2 hser
    refine ⟨hd, ?_, ?_⟩
    · unfold writeMessageThreaded
      rw [hd]
    · intro hlg
      unfold writeMessageAsync
      rw [hlg, hd]
  · intro hser
    obtain ⟨s, hs⟩ := ((dumps_ser (sizeV m)).1 m le_rfl).1 hser
    refine ⟨s, hs, ?_, ?_⟩
    · intro hlen
      refine ⟨[(utf8Encode s).length / 2 ^ 24 % 256,
        (utf8Encode s).length / 2 ^ 16 % 256, (utf8Encode s).length / 2 ^ 8 % 256,
        (utf8Encode s).length % 256] ++ utf8Encode s, ?_⟩
      unfold writeMessageThreaded
      rw [hs]
      show (match pack32 (utf8Encode s).length with
        | Except.error e => Except.error e
        | Except.ok hdr => Except.ok (hdr ++ utf8Encode s)) = _
      rw [pack32_ok_of_lt hlen]
    · intro hlg hlen
      refine ⟨[(z.compress (utf8Encode s)).length / 2 ^ 24 % 256,
        (z.compress (utf8Encode s)).length / 2 ^ 16 % 256,
        (z.compress (utf8Encode s)).length / 2 ^ 8 % 256,
        (z.compress (utf8Encode s)).length % 256] ++ z.compress (utf8Encode s), ?_⟩
      unfold writeMessageAsync
      rw [hlg, hs]
      show (match pack32 (z.compress (utf8Encode s)).length with
        | Except.error e => Except.error e
        | Except.ok hdr => Except.ok (hdr ++ z.compress (utf8Encode s))) = _
      rw [pack32_ok_of_lt hlen]

/-- Witness for C8: `{"type": 3, "x": set()}` fails to encode with
`TypeError` in both variants (the connection-registry model is untouched by
construction), while the serializable `{"type": 3}` encodes fine. -/
theorem C8_witness :
    writeMessageThreaded
      (.pydict [(keyType, .pyint 3), ([120], .pyset [])]) = .error .typeError ∧
    writeMessageAsync idCodec
      (.pydict [(keyType, .pyint 3), ([120], .pyset [])]) = .error .typeError ∧
    (∃ f, writeMessageThreaded mEx = .ok f) := by
  have h1 := (C8_serialization_error_semantics idCodec
    (.pydict [(keyType, .pyint 3), ([120], .pyset [])])
    (.pydict [(keyType, .pystr (str2cp "REQUEST_FILE_LIST")),
      ([120], .pyset [])])).1
    (by simp [serV, serD])
  have h2 := (C8_serialization_error_semantics idCodec mEx mEx).2
    (by simp [mEx, serV, serD])
  obtain ⟨s, hs, hth, _⟩ := h2
  refine ⟨h1.2.1, h1.2.2 rfl, hth ?_⟩
  rw [show s = str2cp "\x7b\"type\": 3\x7d" from by
    have := dumps_mEx
    rw [hs] at this
    cases this
    rfl]
  decide

/-- C9 counterexample: the threaded variant's log record on decode and
encode is the full message — `'Message {} from {}'.format(msg, ...)` /
`'Writing {} to {}'.format(message, ...)` — so for a message with a `data`
field the logged record still contains `data` and renders `type` as its raw
value, contradicting the claim for "both variants". -/
theorem C9_counterexample :
    threadedLogRecord (.pydict [(keyType, .pyint 1), (keyData, .pystr [97])]) =
      .pydict [(keyType, .pyint 1), (keyData, .pystr [97])] ∧
    lookupKey keyData [(keyType, .pyint 1), (keyData, .pystr [97])] =
      some (.pystr [97]) :=
  ⟨rfl, rfl⟩

/-- C9 as amended: in the async variant, `__message_log` produces exactly
the claimed projection — the `data` key is omitted, `type` is rendered as
the kind name, and every other field is preserved; the threaded variant
logs the full message unmodified (including any `data` field). -/
theorem C9_amended_log_projection :
    ∀ (kvs : List (List Nat × PyVal)) (tv : PyVal) (t : MessageType),
      lookupKey keyType kvs = some tv → messageTypeOfVal tv = some t →
      ∃ kvs2, messageLog (.pydict kvs) = .ok (.pydict kvs2) ∧
        lookupKey keyData kvs2 = none ∧
        lookupKey keyType kvs2 = some (.pystr t.nameStr) ∧
        (∀ k, k ≠ keyType → k ≠ keyData →
          lookupKey k kvs2 = lookupKey k kvs) ∧
        threadedLogRecord (.pydict kvs) = .pydict kvs := by
  intro kvs tv t hl hv
  refine ⟨dictInsert (kvs.filter (fun p => decide (p.1 ≠ keyData))) keyType
    (.pystr t.nameStr), ?_, ?_, ?_, ?_, rfl⟩
  · rw [show messageLog (.pydict kvs) = (match lookupKey keyType kvs with
      | none => Except.error PyError.keyError
      | some tv =>
        (match messageTypeOfVal tv with
        | none => Except.error PyError.valueError
        | some t => Except.ok (.pydict (dictInsert
            (kvs.filter (fun p => decide (p.1 ≠ keyData))) keyType
            (.pystr t.nameStr))))) from rfl, hl]
    show (match messageTypeOfVal tv with
      | none => Except.error PyError.valueError
      | some t => Except.ok (PyVal.pydict (dictInsert
          (kvs.filter (fun p => decide (p.1 ≠ keyData))) keyType
          (.pystr t.nameStr)))) = _
    rw [hv]
  · rw [lookupKey_dictInsert_ne _ _ _ _ (by decide), lookupKey_filter_data]
  · exact lookupKey_dictInsert_self _ _ _
  · intro k hkt hkd
    rw [lookupKey_dictInsert_ne _ _ _ _ hkt, lookupKey_filter_ne _ _ hkd]

/-- Witness for C9's amended statement on
`{"type": 1, "data": "a", "x": 2}`. -/
theorem C9_witness :
    ∃ kvs2, messageLog (.pydict [(keyType, .pyint 1), (keyData, .pystr [97]),
        ([120], .pyint 2)]) = .ok (.pydict kvs2) ∧
      lookupKey keyData kvs2 = none ∧
      lookupKey keyType kvs2 =
        some (.pystr (MessageType.REQUEST_REGISTER).nameStr) ∧
      (∀ k, k ≠ keyType → k ≠ keyData →
        lookupKey k kvs2 = lookupKey k [(keyType, .pyint 1),
          (keyData, .pystr [97]), ([120], .pyint 2)]) ∧
      threadedLogRecord (.pydict [(keyType, .pyint 1), (keyData, .pystr [97]),
        ([120], .pyint 2)]) = .pydict [(keyType, .pyint 1),
        (keyData, .pystr [97]), ([120], .pyint 2)] :=
  C9_amended_log_projection
    [(keyType, .pyint 1), (keyData, .pystr [97]), ([120], .pyint 2)]
    (.pyint 1) .REQUEST_REGISTER rfl rfl

/-- C10: both async `_read_message` and `_write_message` run the message
through `__message_log`, which indexes `message['type']` and evaluates
`MessageType(message['type'])`.  For a mapping without a `type` key the
write raises `KeyError` before any frame bytes are written (the
`logger.debug` line precedes `json.dumps` and `writer.write`; in the model
an error outcome carries no frame), and for a `type` value that is not one
of the 13 recognized `MessageType` values it raises `ValueError`; on the
read side the same failures occur after the payload has been parsed, so the
message is never returned — even though the decode performs no other type
validation. -/
theorem C10_message_log_type_check :
    ∀ (z : Zcodec) (kvs : List (List Nat × PyVal)) (tv : PyVal)
      (raw d s hdr : List Nat),
      (lookupKey keyType kvs = none →
        writeMessageAsync z (.pydict kvs) = .error .keyError) ∧
      (lookupKey keyType kvs = some tv → messageTypeOfVal tv = none →
        writeMessageAsync z (.pydict kvs) = .error .valueError) ∧
      (pack32 raw.length = .ok hdr → z.decompress raw = .ok d →
        utf8Decode d = .ok s → loads s = .ok (.pydict kvs) →
        lookupKey keyType kvs = none →
        readMessageAsync z (hdr ++ raw) = .error .keyError) ∧
      (pack32 raw.length = .ok hdr → z.decompress raw = .ok d →
        utf8Decode d = .ok s → loads s = .ok (.pydict kvs) →
        lookupKey keyType kvs = some tv → messageTypeOfVal tv = none →
        readMessageAsync z (hdr ++ raw) = .error .valueError) := by
  intro z kvs tv raw d s hdr
  have hread : ∀ (e : PyError), pack32 raw.length = .ok hdr →
      z.decompress raw = .ok d → utf8Decode d = .ok s →
      loads s = .ok (.pydict kvs) → messageLog (.pydict kvs) = .error e →
      readMessageAsync z (hdr ++ raw) = .error e := by
    intro e hp hz hu hl hlog
    have hlen4 := pack32_length hp
    unfold readMessageAsync
    rw [readexactly_of_le (by simp [hlen4]),
      List.take_left' hlen4, List.drop_left' hlen4]
    show (match readexactly (unpack32 hdr) raw with
      | Except.error e => Except.error e
      | Except.ok (raw2, r2) =>
        (match z.decompress raw2 with
        | Except.error e => Except.error e
        | Except.ok d2 =>
          (match parsePayload d2 with
          | Except.error e => Except.error e
          | Except.ok v =>
            (match messageLog v with
            | Except.error e => Except.error e
            | Except.ok _ => Except.ok (v, r2))))) = Except.error e
    rw [unpack32_pack32 hp, readexactly_of_le (by simp), List.take_length,
      List.drop_length]
    show (match z.decompress raw with
      | Except.error e => Except.error e
      | Except.ok d2 =>
        (match parsePayload d2 with
        | Except.error e => Except.error e
        | Except.ok v =>
          (match messageLog v with
          | Except.error e => Except.error e
          | Except.ok _ => Except.ok (v, ([] : List Nat))))) = Except.error e
    rw [hz]
    show (match parsePayload d with
      | Except.error e => Except.error e
      | Except.ok v =>
        (match messageLog v with
        | Except.error e => Except.error e
        | Except.ok _ => Except.ok (v, ([] : List Nat)))) = Except.error e
    rw [show parsePayload d = .ok (.pydict kvs) from by
      unfold parsePayload
      rw [hu]
      exact hl]
    show (match messageLog (.pydict kvs) with
      | Except.error e => Except.error e
      | Except.ok _ => Except.ok ((.pydict kvs : PyVal), ([] : List Nat))) =
      Except.error e
    rw [hlog]
  refine ⟨?_, ?_, ?_, ?_⟩
  · intro hl
    have hml : messageLog (.pydict kvs) = .error .keyError := by
      rw [show messageLog (.pydict kvs) = (match lookupKey keyType kvs with
        | none => Except.error PyError.keyError
        | some tv =>
          (match messageTypeOfVal tv with
          | none => Except.error PyError.valueError
          | some t => Except.ok (.pydict (dictInsert
              (kvs.filter (fun p => decide (p.1 ≠ keyData))) keyType
              (.pystr t.nameStr))))) from rfl, hl]
    unfold writeMessageAsync
    rw [hml]
  · intro hl hv
    have hml : messageLog (.pydict kvs) = .error .valueError := by
      rw [show messageLog (.pydict kvs) = (match lookupKey keyType kvs with
        | none => Except.error PyError.keyError
        | some tv =>
          (match messageTypeOfVal tv with
          | none => Except.error PyError.valueError
          | some t => Except.ok (.pydict (dictInsert
              (kvs.filter (fun p => decide (p.1 ≠ keyData))) keyType
              (.pystr t.nameStr))))) from rfl, hl]
      show (match messageTypeOfVal tv with
        | none => Except.error PyError.valueError
        | some t => Except.ok (PyVal.pydict (dictInsert
            (kvs.filter (fun p => decide (p.1 ≠ keyData))) keyType
            (.pystr t.nameStr)))) = Except.error PyError.valueError
      rw [hv]
    unfold writeMessageAsync
    rw [hml]
  · intro hp hz hu hl hlk
    have hml : messageLog (.pydict kvs) = .error .keyError := by
      rw [show messageLog (.pydict kvs) = (match lookupKey keyType kvs with
        | none => Except.error PyError.keyError
        | some tv =>
          (match messageTypeOfVal tv with
          | none => Except.error PyError.valueError
          | some t => Except.ok (.pydict (dictInsert
              (kvs.filter (fun p => decide (p.1 ≠ keyData))) keyType
              (.pystr t.nameStr))))) from rfl, hlk]
    exact hread .keyError hp hz hu hl hml
  · intro hp hz hu hl hlk hv
    have hml : messageLog (.pydict kvs) = .error .valueError := by
      rw [show messageLog (.pydict kvs) = (match lookupKey keyType kvs with
        | none => Except.error PyError.keyError
        | some tv =>
          (match messageTypeOfVal tv with
          | none => Except.error PyError.valueError
          | some t => Except.ok (.pydict (dictInsert
              (kvs.filter (fun p => decide (p.1 ≠ keyData))) keyType
              (.pystr t.nameStr))))) from rfl, hlk]
      show (match messageTypeOfVal tv with
        | none => Except.error PyError.valueError
        | some t => Except.ok (PyVal.pydict (dictInsert
            (kvs.filter (fun p => decide (p.1 ≠ keyData))) keyType
            (.pystr t.nameStr)))) = Except.error PyError.valueError
      rw [hv]
    exact hread .valueError hp hz hu hl hml

/-- Witness for C10: `{"foo": 1}` (no `type`) raises `KeyError` on write
and on read after parsing; `{"type": 99}` (unrecognized kind) raises
`ValueError` likewise. -/
theorem C10_witness :
    writeMessageAsync idCodec (.pydict [([102, 111, 111], .pyint 1)]) =
      .error .keyError ∧
    writeMessageAsync idCodec (.pydict [(keyType, .pyint 99)]) =
      .error .valueError ∧
    readMessageAsync idCodec
      ([0, 0, 0, 10] ++ str2cp "\x7b\"foo\": 1\x7d") = .error .keyError ∧
    readMessageAsync idCodec
      ([0, 0, 0, 12] ++ str2cp "\x7b\"type\": 99\x7d") = .error .valueError :=
  ⟨(C10_message_log_type_check idCodec [([102, 111, 111], .pyint 1)]
      .pynull [] [] [] []).1 rfl,
    (C10_message_log_type_check idCodec [(keyType, .pyint 99)]
      (.pyint 99) [] [] [] []).2.1 rfl rfl,
    (C10_message_log_type_check idCodec [([102, 111, 111], .pyint 1)]
      .pynull (str2cp "\x7b\"foo\": 1\x7d") (str2cp "\x7b\"foo\": 1\x7d")
      (str2cp "\x7b\"foo\": 1\x7d") [0, 0, 0, 10]).2.2.1 rfl rfl rfl rfl rfl,
    (C10_message_log_type_check idCodec [(keyType, .pyint 99)]
      (.pyint 99) (str2cp "\x7b\"type\": 99\x7d") (str2cp "\x7b\"type\": 99\x7d")
      (str2cp "\x7b\"type\": 99\x7d") [0, 0, 0, 12]).2.2.2 rfl rfl rfl rfl rfl rfl⟩

end P2pfs
